import Mathlib

/-!
# Verification of the Project_History snapshot-analysis pipeline

Shallow embedding, in Lean 4, of the parts of the repository that the
checked specification claims talk about:

* `utils/api_cache.py`  — the content-addressed response cache (key
  derivation, get / set / remove, corrupt-file loading policy);
* `utils/ai_client.py`  — `QueryWithBaseClient` and the malformed-response
  retry loop of `query_json`;
* `snapshot_discovery.py` — suffix parsing, sort keys, snapshot discovery;
* `snapshot_diff.py`    — the diff classification (added / removed /
  moved / modified / unchanged) with hash-based move detection;
* `change_analyzer.py`  — adaptive breakpoints and the analysis-unit
  planner.

Modelling conventions, used uniformly below:

* Python `float` values are modelled as exact rationals (`ℚ`); machine
  rounding of float arithmetic is outside the model.
* Python `dict`s are modelled as insertion-ordered association lists
  (`List (κ × α)`); `dict[k]` is the first binding of `k`.
* SHA-256 digests are modelled by the hashed string itself: under the
  collision-resistance assumption the digest is injective in its input, so
  a store keyed by digests is isomorphic to one keyed by the raw strings.
* File-system and network effects (temp files, atomic renames, log files,
  the HTTP clients) are modelled by explicit state threading and by
  oracle functions supplied as arguments; `print` calls are dropped.
* Python's stable `list.sort` is modelled by `List.insertionSort` with the
  corresponding non-strict ordering (insertion sort is stable, and a
  stable sort's output is uniquely determined by the ordering).
-/

/-! ## Association-list model of Python dictionaries -/

/-- First binding of `k` in an association list: `d.get(k)` / `d[k]`. -/
def lookupA {κ α : Type} [DecidableEq κ] : List (κ × α) → κ → Option α
  | [], _ => none
  | e :: rest, k => if e.1 = k then some e.2 else lookupA rest k

/-- Insert a fresh key at the end (Python dict insertion of a new key). -/
def insertA {κ α : Type} [DecidableEq κ] (l : List (κ × α)) (k : κ) (v : α) :
    List (κ × α) :=
  l ++ [(k, v)]

/-- `del d[k]`: drop every binding of `k` (association lists built with
`insertA` have at most one). -/
def eraseA {κ α : Type} [DecidableEq κ] : List (κ × α) → κ → List (κ × α)
  | [], _ => []
  | e :: rest, k => if e.1 = k then eraseA rest k else e :: eraseA rest k

theorem lookupA_append_right {κ α : Type} [DecidableEq κ]
    (l₁ l₂ : List (κ × α)) (k : κ) (h : lookupA l₁ k = none) :
    lookupA (l₁ ++ l₂) k = lookupA l₂ k := by
  induction l₁ with
  | nil => simp
  | cons e rest ih =>
    by_cases hk : e.1 = k
    · simp [lookupA, hk] at h
    · simp only [lookupA, hk, if_false] at h
      simp only [List.cons_append, lookupA, hk, if_false]
      exact ih h

theorem lookupA_insertA_self {κ α : Type} [DecidableEq κ]
    (l : List (κ × α)) (k : κ) (v : α) (h : lookupA l k = none) :
    lookupA (insertA l k v) k = some v := by
  rw [insertA, lookupA_append_right l _ k h]
  simp [lookupA]

theorem lookupA_insertA_ne {κ α : Type} [DecidableEq κ]
    (l : List (κ × α)) (k k' : κ) (v : α) (h : k ≠ k') :
    lookupA (insertA l k v) k' = lookupA l k' := by
  induction l with
  | nil => simp [insertA, lookupA, h]
  | cons e rest ih =>
    by_cases hk : e.1 = k'
    · simp [insertA, lookupA, hk]
    · simpa [insertA, lookupA, hk] using ih

theorem lookupA_eraseA_self {κ α : Type} [DecidableEq κ]
    (l : List (κ × α)) (k : κ) : lookupA (eraseA l k) k = none := by
  induction l with
  | nil => rfl
  | cons e rest ih =>
    by_cases hk : e.1 = k
    · simpa [eraseA, hk] using ih
    · simpa [eraseA, lookupA, hk] using ih

theorem lookupA_eraseA_ne {κ α : Type} [DecidableEq κ]
    (l : List (κ × α)) (k k' : κ) (h : k ≠ k') :
    lookupA (eraseA l k) k' = lookupA l k' := by
  induction l with
  | nil => rfl
  | cons e rest ih =>
    by_cases hk : e.1 = k
    · rw [lookupA, if_neg (by rw [hk]; exact h), ← ih]
      simp [eraseA, hk]
    · by_cases hk' : e.1 = k'
      · simp [eraseA, lookupA, hk, hk', Ne.symm h]
      · simpa [eraseA, lookupA, hk, hk'] using ih

/-! ## Response cache (`utils/api_cache.py`)

The cache file stores, for each SHA-256 key, the single response string
(`{'response': ...}`); the model keeps the response string directly.
`save_cache` (temp-file plus atomic rename, lines 242-312) persists the
in-memory dictionary verbatim and is transparent to the dictionary's
contents, so the model's state is the in-memory pair of dictionaries. -/

/-- `APICache._generate_cache_key` (api_cache.py lines 85-103): the
canonical request string whose SHA-256 hex digest keys the cache.  The
digest itself is modelled by the rendered string (see the header note). -/
def _generate_cache_key (full_cache query_prompt model_name : String)
    (max_tokens : ℕ) : String :=
  full_cache ++ "\n\n---QUERY---\n\n" ++ query_prompt ++ "\n\n---MODEL---\n\n"
    ++ model_name ++ "\n\n---MAX_TOKENS---\n\n" ++ toString max_tokens

/-- In-memory state of an `APICache`: the main cache dictionary and the
read-only "old cache" consolidation dictionary. -/
structure CacheState where
  main : List (String × String)
  old : List (String × String)
deriving DecidableEq, Repr

/-- `APICache.get_cached_response` (lines 105-142): consult the main
cache, then the old cache; an old-cache hit is promoted into the main
cache.  Returns the response (if any) and the possibly-updated state. -/
def get_cached_response (st : CacheState) (full_cache query_prompt
    model_name : String) (max_tokens : ℕ) : Option String × CacheState :=
  let key := _generate_cache_key full_cache query_prompt model_name max_tokens
  match lookupA st.main key with
  | some r => (some r, st)
  | none =>
    match lookupA st.old key with
    | some r => (some r, { st with main := insertA st.main key r })
    | none => (none, st)

/-- `APICache.set_cached_response` (lines 144-171): write only when the
key is absent from the main cache (idempotent-overwrite is skipped). -/
def set_cached_response (st : CacheState) (full_cache query_prompt
    model_name response : String) (max_tokens : ℕ) : CacheState :=
  let key := _generate_cache_key full_cache query_prompt model_name max_tokens
  match lookupA st.main key with
  | some _ => st
  | none => { st with main := insertA st.main key response }

/-- `APICache.remove_cache_entry` (lines 319-339): delete from the main
cache only; reports whether an entry was present. -/
def remove_cache_entry (st : CacheState) (full_cache query_prompt
    model_name : String) (max_tokens : ℕ) : Bool × CacheState :=
  let key := _generate_cache_key full_cache query_prompt model_name max_tokens
  match lookupA st.main key with
  | some _ => (true, { st with main := eraseA st.main key })
  | none => (false, st)

/-! ### Loading and the corruption policy (`_load_cache_file`, `load_cache`) -/

/-- The file system visible to the cache loader: path to raw file text. -/
abbrev FileSystem := List (String × String)

/-- Overwriting write (`shutil.copy2` towards its destination). -/
def writeFS (fs : FileSystem) (path content : String) : FileSystem :=
  insertA (eraseA fs path) path content

/-- Result of `_load_cache_file`: a parsed cache dictionary, or the
`RuntimeError` raised for a corrupt main cache. -/
inductive LoadResult where
  | ok (entries : List (String × String))
  | corrupt
deriving DecidableEq, Repr

/-- `APICache._load_cache_file` (api_cache.py lines 173-223).

`parseJsonFile` models `json.load`: `none` covers both `JSONDecodeError`
and `IOError` on a readable path.  `self_cache_file` is `self.cache_file`;
`timestamp` is `datetime.now().strftime(...)`; `copyOk` tells whether the
`shutil.copy2` backup succeeds (its failure is caught and the
`RuntimeError` is raised regardless, lines 206-216). -/
def _load_cache_file (parseJsonFile : String → Option (List (String × String)))
    (self_cache_file : String) (fs : FileSystem) (cache_file_path : String)
    (timestamp : String) (copyOk : Bool) : LoadResult × FileSystem :=
  match lookupA fs cache_file_path with
  | none => (.ok [], fs)
  | some content =>
    match parseJsonFile content with
    | some d => (.ok d, fs)
    | none =>
      if cache_file_path = self_cache_file then
        let backup_file := cache_file_path ++ ".corrupted." ++ timestamp ++ ".bak"
        ( .corrupt
        , if copyOk then writeFS fs backup_file content else fs )
      else
        (.ok [], fs)

/-- `APICache.load_cache` (lines 225-240): load the main cache, then the
old cache if an old-cache path was configured.  A corrupt main cache
propagates the `RuntimeError`; a corrupt old cache degrades to `[]`. -/
def load_cache (parseJsonFile : String → Option (List (String × String)))
    (cache_file : String) (old_cache_file : Option String) (fs : FileSystem)
    (timestamp : String) (copyOk : Bool) : Except FileSystem CacheState :=
  match _load_cache_file parseJsonFile cache_file fs cache_file timestamp copyOk with
  | (.corrupt, fs') => .error fs'
  | (.ok mainEntries, fs') =>
    match old_cache_file with
    | none => .ok { main := mainEntries, old := [] }
    | some oldPath =>
      match _load_cache_file parseJsonFile cache_file fs' oldPath timestamp copyOk with
      | (.corrupt, _) => .ok { main := mainEntries, old := [] }
      | (.ok oldEntries, _) => .ok { main := mainEntries, old := oldEntries }

/-- C7: if the main cache file exists but fails to parse, loading copies
it to the timestamped backup (when the copy itself succeeds), raises, and
never overwrites the corrupt file; a corrupt secondary old cache file
instead degrades to an empty old-cache mapping while the main cache
loads normally. -/
theorem c7_cache_corruption_policy
    (parse : String → Option (List (String × String)))
    (fs : FileSystem) (mainPath oldPath ts : String) (copyOk : Bool)
    (content oldContent : String) (mainEntries : List (String × String)) :
    (lookupA fs mainPath = some content → parse content = none →
      ∃ fs', _load_cache_file parse mainPath fs mainPath ts copyOk
          = (.corrupt, fs')
        ∧ load_cache parse mainPath (some oldPath) fs ts copyOk = .error fs'
        ∧ lookupA fs' mainPath = some content
        ∧ (copyOk = true →
            lookupA fs' (mainPath ++ ".corrupted." ++ ts ++ ".bak")
              = some content)) ∧
    (oldPath ≠ mainPath →
      lookupA fs mainPath = some content → parse content = some mainEntries →
      lookupA fs oldPath = some oldContent → parse oldContent = none →
      load_cache parse mainPath (some oldPath) fs ts copyOk
        = .ok { main := mainEntries, old := [] }) := by
  have hne : mainPath ++ ".corrupted." ++ ts ++ ".bak" ≠ mainPath := by
    intro h
    have hlen := congrArg String.length h
    have h11 : (".corrupted." : String).length = 11 := rfl
    have h4 : (".bak" : String).length = 4 := rfl
    rw [String.length_append, String.length_append, String.length_append,
      h11, h4] at hlen
    omega
  constructor
  · intro hmain hbad
    refine ⟨if copyOk then
        writeFS fs (mainPath ++ ".corrupted." ++ ts ++ ".bak") content
      else fs, ?_, ?_, ?_, ?_⟩
    · simp [_load_cache_file, hmain, hbad]
    · simp [load_cache, _load_cache_file, hmain, hbad]
    · by_cases hcopy : copyOk = true
      · subst hcopy
        rw [if_pos rfl, writeFS, lookupA_insertA_ne _ _ _ _ hne,
          lookupA_eraseA_ne _ _ _ hne]
        exact hmain
      · rw [if_neg hcopy]
        exact hmain
    · intro hc
      subst hc
      rw [if_pos rfl]
      exact lookupA_insertA_self _ _ _ (lookupA_eraseA_self _ _)
  · intro holdne hmain hgood hold hbad
    simp [load_cache, _load_cache_file, hmain, hgood, hold, hbad, holdne]

/-- Closed witness for `c7_cache_corruption_policy` at a concrete file
system whose main cache file is corrupt. -/
theorem c7_cache_corruption_policy_witness :
    ∃ fs', _load_cache_file (fun _ => none) "api_cache.json"
        [("api_cache.json", "x")] "api_cache.json" "t" true = (.corrupt, fs')
      ∧ load_cache (fun _ => none) "api_cache.json" (some "api_cache_old.json")
          [("api_cache.json", "x")] "t" true = .error fs'
      ∧ lookupA fs' "api_cache.json" = some "x"
      ∧ (true = true →
          lookupA fs' ("api_cache.json" ++ ".corrupted." ++ "t" ++ ".bak")
            = some "x") :=
  (c7_cache_corruption_policy (fun _ => none) [("api_cache.json", "x")]
    "api_cache.json" "api_cache_old.json" "t" true "x" "y" []).1 rfl rfl

/-! ## AI client (`utils/ai_client.py`)

`QueryWithBaseClient` and the malformed-response retry loop of
`query_json`.  External effects are supplied as pure oracles:

* `extractJson` models `extract_json_from_response` (ai_client.py lines
  1119-1190, a regex search whose only relevance to the retry engine is
  the string it returns);
* `parse` models `json.loads` at the granularity the engine inspects
  (parse error / JSON null / object key set / array / other);
* `apiResponse n` is the text of the `n`-th actual provider call, `none`
  modelling an exception escaping `create_message`;
* `requestId a` is the `random.randint(100000, 999999)` drawn for retry
  attempt `a`.

The runs modelled here are calls with `config=None` (ai_client.py lines
437-442): `effective_max_retries = primary_max_attempts = max_retries`,
no fallback models, and the fallback phase (lines 622-731) is skipped.
Log-file writes and `print` calls are dropped. -/

/-- Python `str.strip()` (ASCII whitespace suffices for the strings the
claims touch). -/
def pyStrip (s : String) : String :=
  ⟨((s.data.dropWhile Char.isWhitespace).reverse.dropWhile
      Char.isWhitespace).reverse⟩

/-- `QueryWithBaseClient` (ai_client.py lines 129-245), restricted to the
observables the claims are about: the cache interaction and the returned
result string.  On a cache hit (main or promoted old entry) no provider
call happens; on a miss the provider's `apiResult` is consumed, and the
raw response is cached only when it is non-empty after stripping
(lines 226-229: `if result and str(result).strip()`). -/
def QueryWithBaseClient (extractJson : String → String) (json_output : Bool)
    (model_name full_cache query_prompt : String) (max_tokens : ℕ)
    (apiResult : Option String) (st : CacheState) :
    Option (String × CacheState) :=
  match get_cached_response st full_cache query_prompt model_name max_tokens with
  | (some cached, st') =>
      some (if json_output then extractJson cached else cached, st')
  | (none, st') =>
    match apiResult with
    | none => none
    | some raw =>
      let st'' := if pyStrip raw ≠ "" then
          set_cached_response st' full_cache query_prompt model_name raw
            max_tokens
        else st'
      some (if json_output then extractJson raw else raw, st'')

/-- C10: on the model-calling path (no cached entry under the key),
`QueryWithBaseClient` writes to the cache only a response that is
non-empty after stripping; a whitespace-only response leaves the cache
untouched, and any changed binding is the request key holding the raw
response. -/
theorem c10_empty_response_never_cached
    (extractJson : String → String) (json_output : Bool)
    (model_name full_cache query_prompt : String) (max_tokens : ℕ)
    (raw : String) (st : CacheState) (res : String) (st' : CacheState)
    (hmiss : lookupA st.main
      (_generate_cache_key full_cache query_prompt model_name max_tokens)
      = none)
    (hmissOld : lookupA st.old
      (_generate_cache_key full_cache query_prompt model_name max_tokens)
      = none)
    (hrun : QueryWithBaseClient extractJson json_output model_name full_cache
      query_prompt max_tokens (some raw) st = some (res, st')) :
    (pyStrip raw = "" → st' = st) ∧
    (∀ k, lookupA st'.main k ≠ lookupA st.main k →
      k = _generate_cache_key full_cache query_prompt model_name max_tokens
        ∧ pyStrip raw ≠ "" ∧ lookupA st'.main k = some raw) := by
  by_cases hstrip : pyStrip raw = ""
  · simp only [QueryWithBaseClient, get_cached_response, hmiss, hmissOld,
      hstrip, ne_eq, not_true_eq_false, if_false, Option.some.injEq,
      Prod.mk.injEq] at hrun
    obtain ⟨-, hst⟩ := hrun
    subst hst
    exact ⟨fun _ => rfl, fun k hk => absurd rfl hk⟩
  · simp only [QueryWithBaseClient, get_cached_response,
      set_cached_response, hmiss, hmissOld, hstrip, ne_eq,
      not_false_eq_true, if_true, Option.some.injEq, Prod.mk.injEq] at hrun
    obtain ⟨-, hst⟩ := hrun
    subst hst
    refine ⟨fun h => absurd h hstrip, fun k hk => ?_⟩
    by_cases hkey : k = _generate_cache_key full_cache query_prompt model_name
        max_tokens
    · subst hkey
      exact ⟨rfl, hstrip, lookupA_insertA_self _ _ _ hmiss⟩
    · exact absurd (lookupA_insertA_ne _ _ _ _ fun h => hkey h.symm) hk

/-- Closed witness for `c10_empty_response_never_cached`: a fresh call on
an empty cache returning `"ok"`. -/
theorem c10_empty_response_never_cached_witness :
    (pyStrip "ok" = "" → CacheState.mk
        [(_generate_cache_key "S" "P" "m" 100, "ok")] [] = CacheState.mk [] []) ∧
    (∀ k, lookupA (CacheState.mk
        [(_generate_cache_key "S" "P" "m" 100, "ok")] []).main k
        ≠ lookupA (CacheState.mk ([] : List (String × String)) []).main k →
      k = _generate_cache_key "S" "P" "m" 100 ∧ pyStrip "ok" ≠ ""
        ∧ lookupA (CacheState.mk
            [(_generate_cache_key "S" "P" "m" 100, "ok")] []).main k
          = some "ok") :=
  c10_empty_response_never_cached id true "m" "S" "P" 100 "ok"
    (CacheState.mk [] []) "ok"
    (CacheState.mk [(_generate_cache_key "S" "P" "m" 100, "ok")] [])
    rfl rfl (by decide)

/-- `query_json` lines 391-405: merge cache-prompt parts that fall below
the ~1024-token estimate (4500 characters) into their predecessor. -/
def merge_cache_parts (parts : List String) : List String :=
  parts.foldl (fun acc part =>
    match acc.getLast? with
    | none => [part]
    | some last =>
      if last.length > 4500 then acc ++ [part]
      else acc.dropLast ++ [last ++ part]) []

/-- `query_json` lines 407-424: cap the block list at `MAX_CACHE_BLOCKS
= 4` entries by joining the leading blocks into one superblock. -/
def cap_cache_blocks (l : List String) : List String :=
  if l.length > 4 then
    String.join (l.take (l.length - 4 + 1)) :: l.drop (l.length - 4 + 1)
  else l

/-- The `new_cache_prompt_list` rebuilt at the top of `query_json`. -/
def new_cache_prompt_list (parts : List String) : List String :=
  cap_cache_blocks (merge_cache_parts parts)

/-- The cache-busting variation prepended to the variable prompt on retry
attempts (ai_client.py line 458). -/
def cache_bust_tag (requestId : ℕ) : String :=
  "[Request ID: " ++ toString requestId
    ++ " - Please ensure your response is properly formatted JSON]\n\n"

/-- Shape of a `json.loads` result, at the granularity `query_json`
inspects it: a JSON object (only its key set is consulted), a JSON array,
JSON `null` (Python `None`), or any other value. -/
inductive PyJsonShape where
  | obj (keys : List String)
  | arr
  | null
  | prim
deriving DecidableEq, Repr

/-- Contract model of `json.loads`: `none` is a parse error. -/
abbrev JsonParse := String → Option PyJsonShape

/-- ai_client.py lines 472-517: is the (JSON-extracted) response string
problematic?  Empty string, JSON parse failure, missing required keys in
an object, or a non-object shape when `expected_keys` is a non-empty
list.  `expected_keys = none` models `expected_keys=None` (no
validation). -/
def response_problematic (parse : JsonParse)
    (expected_keys : Option (List String)) (result : String) : Bool :=
  if result = "" then true
  else
    match parse result with
    | none => true
    | some shape =>
      match expected_keys, shape with
      | none, _ => false
      | some eks, .obj keys => !(eks.filter (fun k => !(keys.contains k))).isEmpty
      | some eks, _ => !eks.isEmpty

/-- Python's `parsed_result` variable as observed at line 520: `none` when
the response was empty, failed to parse, or parsed to JSON `null`
(`json.loads` returns Python `None`, so `parsed_result is not None`
fails). -/
def parsed_value (parse : JsonParse) (result : String) : Option PyJsonShape :=
  if result = "" then none
  else
    match parse result with
    | some .null => none
    | some s => some s
    | none => none

/-- One row of the run trace: which prompt text attempt `attempt` sent. -/
structure AttemptRecord where
  attempt : ℕ
  promptUsed : String
deriving DecidableEq, Repr

/-- Final outcome of a `query_json` run. -/
inductive QueryOutcome where
  | success (parsed : PyJsonShape)
  | modelError
deriving DecidableEq, Repr

/-- Result of a modelled `query_json` run: outcome, final cache state and
the trace of attempts made against the (primary) model. -/
structure QueryRunResult where
  outcome : QueryOutcome
  cache : CacheState
  trace : List AttemptRecord
deriving Repr

/-- The pure oracles a `query_json` run consumes (see the section
comment). -/
structure QueryEnv where
  extractJson : String → String
  parse : JsonParse
  apiResponse : ℕ → Option String
  requestId : ℕ → ℕ

/-- Cleanup loop over recorded failed attempts (ai_client.py lines
550-552 and 777-780): remove each failed prompt's cache entry. -/
def remove_failed_attempts (full_cache model_name : String) (max_tokens : ℕ)
    (failed : List String) (st : CacheState) : CacheState :=
  failed.foldl (fun s p => (remove_cache_entry s full_cache p model_name
    max_tokens).2) st

/-- The retry loop of `query_json` (ai_client.py lines 451-620) followed
by the exhaustion path (lines 733-789), for runs with `config=None`
(`primary_max_attempts = max_retries`, no fallback models).

Arguments: current `attempt` index, `remaining` loop iterations, number
of provider `calls` made so far (indexes `env.apiResponse`), cache state,
trace and the `failed_attempts` prompt list accumulated so far. -/
def query_json_go (env : QueryEnv) (expected_keys : Option (List String))
    (model_name full_cache prompt : String) (max_tokens : ℕ) :
    ℕ → ℕ → ℕ → CacheState → List AttemptRecord → List String →
    QueryRunResult
  | _, 0, _, st, trace, failed =>
      -- loop exhausted: final cache cleanup, then `raise ModelError`
      { outcome := .modelError
        cache := remove_failed_attempts full_cache model_name max_tokens
          failed st
        trace := trace }
  | attempt, remaining + 1, calls, st, trace, failed =>
      let current_prompt := if attempt = 0 then prompt
        else cache_bust_tag (env.requestId attempt) ++ prompt
      let trace' := trace ++ [⟨attempt, current_prompt⟩]
      let hit := (get_cached_response st full_cache current_prompt model_name
        max_tokens).1.isSome
      match QueryWithBaseClient env.extractJson true model_name full_cache
          current_prompt max_tokens (env.apiResponse calls) st with
      | none =>
          -- exception from the call (lines 590-620): record and continue
          query_json_go env expected_keys model_name full_cache prompt
            max_tokens (attempt + 1) remaining (calls + 1) st trace'
            (failed ++ [current_prompt])
      | some (result, st') =>
          let calls' := if hit then calls else calls + 1
          match response_problematic env.parse expected_keys result,
              parsed_value env.parse result with
          | false, some v =>
              -- success (lines 519-563)
              let st₁ := if attempt > 0 then
                  (remove_cache_entry
                    (remove_cache_entry st' full_cache prompt model_name
                      max_tokens).2
                    full_cache current_prompt model_name max_tokens).2
                else st'
              let st₂ := set_cached_response st₁ full_cache prompt model_name
                result max_tokens
              let st₃ := if failed ≠ [] then
                  remove_failed_attempts full_cache model_name max_tokens
                    failed st₂
                else st₂
              { outcome := .success v, cache := st₃, trace := trace' }
          | pb, _ =>
              -- failure (lines 565-588): record, clean attempt 0's entry
              let st₁ := if attempt = 0 ∧ pb then
                  (remove_cache_entry st' full_cache current_prompt model_name
                    max_tokens).2
                else st'
              query_json_go env expected_keys model_name full_cache prompt
                max_tokens (attempt + 1) remaining calls' st₁ trace'
                (failed ++ [current_prompt])

/-- `query_json` (ai_client.py lines 356-789) for a call with
`config=None`: rebuild the cache-prompt list, then run the retry loop
with `max_retries` attempts against the primary model.  `model_name` is
`getattr(ai_client, 'model', 'unknown')`. -/
def query_json (env : QueryEnv) (cache_prompt_list : List String)
    (prompt : String) (max_tokens max_retries : ℕ)
    (expected_keys : Option (List String)) (model_name : String)
    (st : CacheState) : QueryRunResult :=
  let ncpl := new_cache_prompt_list cache_prompt_list
  let full_cache := String.join ncpl
  query_json_go env expected_keys model_name full_cache prompt max_tokens
    0 max_retries 0 st [] []

/-- Oracle for the C1 run: attempt 0's provider call returns the empty
string, every later call returns the valid JSON array `"[]"`. -/
def c1Env : QueryEnv where
  extractJson := id
  parse := fun s => if s = "[]" then some .arr else none
  apiResponse := fun n => if n = 0 then some "" else some "[]"
  requestId := fun _ => 123456

/-- C1 (code defect; spec §4.2 / §8 scenario 4 describe the intent): run
`query_json` on an empty cache where attempt 0 returns the empty string
(malformed) and the cache-busted attempt 1 returns valid JSON.  The run
succeeds and neither cache holds any busted-variant entry, but the final
cache holds **no** entry under the original key either: the
retry-success cleanup loop (ai_client.py line 551) iterates over
`failed_attempts`, whose first element is the original prompt of attempt
0, and thereby deletes the entry that line 538 had just written under the
original key — directly contradicting the adjacent comments ("Save
successful response under the original prompt key", "Response saved
under original prompt key for future cache hits."). -/
theorem c1_retry_success_loses_original_entry :
    (query_json c1Env ["S"] "P" 100 3 none "m" ⟨[], []⟩).outcome
        = .success .arr
      ∧ (query_json c1Env ["S"] "P" 100 3 none "m" ⟨[], []⟩).trace
        = [⟨0, "P"⟩, ⟨1, cache_bust_tag 123456 ++ "P"⟩]
      ∧ lookupA (query_json c1Env ["S"] "P" 100 3 none "m" ⟨[], []⟩).cache.main
          (_generate_cache_key "S" "P" "m" 100) = none
      ∧ (query_json c1Env ["S"] "P" 100 3 none "m" ⟨[], []⟩).cache.main = []
      ∧ (query_json c1Env ["S"] "P" 100 3 none "m" ⟨[], []⟩).cache.old = [] := by
  decide

/-- Oracle for the C2 counterexample: the provider always returns the
empty string (a malformed response). -/
def c2Env : QueryEnv where
  extractJson := id
  parse := fun _ => none
  apiResponse := fun _ => some ""
  requestId := fun _ => 222222

/-- C2 counterexample: with `max_retries = 1` the response of attempt 0
is malformed (empty string), yet the engine abandons the model with a
`ModelError` after that single original-prompt attempt — no cache-busted
retry is ever made, refuting the claim that a malformed response always
triggers at least one cache-busting retry of the same model. -/
theorem c2_no_retry_when_budget_is_one :
    response_problematic c2Env.parse none "" = true
      ∧ (query_json c2Env ["S"] "P" 100 1 none "m" ⟨[], []⟩).outcome
        = .modelError
      ∧ (query_json c2Env ["S"] "P" 100 1 none "m" ⟨[], []⟩).trace
        = [⟨0, "P"⟩] := by
  decide

/-- The run trace is the input trace followed by what the same run from
a shorter trace records: `query_json_go` only appends to its trace. -/
theorem query_json_go_trace_shift (env : QueryEnv)
    (eks : Option (List String)) (mn fc p : String) (mt : ℕ) :
    ∀ remaining attempt calls st trace₁ trace₂ failed,
    (query_json_go env eks mn fc p mt attempt remaining calls st
        (trace₁ ++ trace₂) failed).trace
      = trace₁ ++ (query_json_go env eks mn fc p mt attempt remaining calls st
        trace₂ failed).trace := by
  intro remaining
  induction remaining with
  | zero =>
    intro attempt calls st trace₁ trace₂ failed
    simp [query_json_go]
  | succ n ih =>
    intro attempt calls st trace₁ trace₂ failed
    simp only [query_json_go]
    cases hq : QueryWithBaseClient env.extractJson true mn fc
        (if attempt = 0 then p else cache_bust_tag (env.requestId attempt) ++ p)
        mt (env.apiResponse calls) st with
    | none =>
      simp only [hq, List.append_assoc]
      exact ih _ _ _ _ _ _
    | some pair =>
      obtain ⟨result, st'⟩ := pair
      simp only [hq]
      cases hp : response_problematic env.parse eks result with
      | false =>
        cases hv : parsed_value env.parse result with
        | some v => simp [hp, hv]
        | none =>
          simp only [hp, hv, List.append_assoc]
          exact ih _ _ _ _ _ _
      | true =>
        simp only [hp, List.append_assoc]
        exact ih _ _ _ _ _ _

/-- Special case of `query_json_go_trace_shift`: a leading trace record
is preserved by the run. -/
theorem query_json_go_trace_cons (env : QueryEnv)
    (eks : Option (List String)) (mn fc p : String) (mt : ℕ)
    (remaining attempt calls : ℕ) (st : CacheState) (r : AttemptRecord)
    (trace : List AttemptRecord) (failed : List String) :
    (query_json_go env eks mn fc p mt attempt remaining calls st (r :: trace)
        failed).trace
      = r :: (query_json_go env eks mn fc p mt attempt remaining calls st
        trace failed).trace := by
  have h := query_json_go_trace_shift env eks mn fc p mt remaining attempt
    calls st [r] trace failed
  simpa using h

/-- With at least one loop iteration left and an empty starting trace,
the first trace record is the current attempt with its (attempt-0 plain /
attempt-`k>0` cache-busted) prompt. -/
theorem query_json_go_trace_head1 (env : QueryEnv)
    (eks : Option (List String)) (mn fc p : String) (mt : ℕ)
    (n attempt calls : ℕ) (st : CacheState) (failed : List String) :
    (query_json_go env eks mn fc p mt attempt (n + 1) calls st []
        failed).trace.take 1
      = [⟨attempt, if attempt = 0 then p
          else cache_bust_tag (env.requestId attempt) ++ p⟩] := by
  simp only [query_json_go]
  cases hq : QueryWithBaseClient env.extractJson true mn fc
      (if attempt = 0 then p else cache_bust_tag (env.requestId attempt) ++ p)
      mt (env.apiResponse calls) st with
  | none =>
    simp only [hq, List.nil_append]
    rw [query_json_go_trace_cons]
    simp [List.take]
  | some pair =>
    obtain ⟨result, st'⟩ := pair
    simp only [hq]
    cases hp : response_problematic env.parse eks result with
    | false =>
      cases hv : parsed_value env.parse result with
      | some v => simp [hp, hv, List.take]
      | none =>
        simp only [hp, hv, List.nil_append]
        rw [query_json_go_trace_cons]
        simp [List.take]
    | true =>
      simp only [hp, List.nil_append]
      rw [query_json_go_trace_cons]
      simp [List.take]

/-- C2 (amended): whenever attempt 0's response is malformed (empty
string, JSON parse failure, missing required keys, or wrong top-level
shape — exactly `response_problematic`) **and the primary model's
attempt budget admits a second attempt** (`max_retries ≥ 2`, the
`config=None` shape; with fallback models configured the source gives
the primary model a single attempt, line 432), the engine retries the
same model, with the bracketed random-request-id cache-busting tag
prepended to the variable prompt, before abandoning it. -/
theorem c2_amended_cache_bust_retry (env : QueryEnv)
    (cache_prompt_list : List String) (prompt : String) (mt mr : ℕ)
    (eks : Option (List String)) (mn : String) (st : CacheState)
    (r0 : String) (st0 : CacheState)
    (hmr : 2 ≤ mr)
    (hq : QueryWithBaseClient env.extractJson true mn
        (String.join (new_cache_prompt_list cache_prompt_list)) prompt mt
        (env.apiResponse 0) st = some (r0, st0))
    (hbad : response_problematic env.parse eks r0 = true) :
    (query_json env cache_prompt_list prompt mt mr eks mn st).trace.take 2
      = [⟨0, prompt⟩, ⟨1, cache_bust_tag (env.requestId 1) ++ prompt⟩] := by
  obtain ⟨r, rfl⟩ : ∃ r, mr = (r + 1) + 1 := ⟨mr - 2, by omega⟩
  simp only [query_json]
  rw [query_json_go]
  simp only [reduceIte, hq, hbad, List.nil_append]
  rw [query_json_go_trace_cons]
  simp only [List.take_succ_cons]
  rw [query_json_go_trace_head1]
  simp

/-- Closed witness for `c2_amended_cache_bust_retry`: budget 2, attempt 0
unparseable, so the trace's second record is the cache-busted retry. -/
theorem c2_amended_cache_bust_retry_witness :
    (query_json ⟨id, fun _ => none, fun _ => some "x", fun _ => 111111⟩
        ["S"] "P" 5 2 none "m" ⟨[], []⟩).trace.take 2
      = [⟨0, "P"⟩, ⟨1, cache_bust_tag 111111 ++ "P"⟩] :=
  c2_amended_cache_bust_retry
    ⟨id, fun _ => none, fun _ => some "x", fun _ => 111111⟩
    ["S"] "P" 5 2 none "m" ⟨[], []⟩ "x"
    ⟨[(_generate_cache_key "S" "P" "m" 5, "x")], []⟩
    (by decide) (by decide) (by decide)

/-! ## Snapshot discovery (`snapshot_discovery.py`)

`_parse_suffix` is a chain of anchored regular expressions over short
ASCII suffixes; each pattern is rendered as a structural parser over the
suffix's character list.  The Python sort keys are variable-length tuples
`(0,'ver',…)`, `(1,'seq',n)`, `(2,'date',y,m,d,letter,sub)`; the string
tag in position 1 is uniquely determined by the leading integer, so the
tag never decides a tuple comparison and keys are modelled as a sum. -/

/-- `int()` of a decimal digit string. -/
def digitsToNat (ds : List Char) : ℕ :=
  ds.foldl (fun acc c => 10 * acc + (c.toNat - '0'.toNat)) 0

/-- Split a greedy run of leading digits off a character list (the
`\d{m,n}`-before-a-separator part of the anchored patterns). -/
def takeDigits (cs : List Char) : List Char × List Char :=
  (cs.takeWhile (·.isDigit), cs.dropWhile (·.isDigit))

/-- The month group `(0[1-9]|1[0-2])` of patterns 1 and 2. -/
def monthChars (m₁ m₂ : Char) : Bool :=
  (m₁ = '0' && '1' ≤ m₂ && m₂ ≤ '9') ||
    (m₁ = '1' && (m₂ = '0' || m₂ = '1' || m₂ = '2'))

/-- The day group `(0[1-9]|[12]\d|3[01])` of patterns 1 and 2. -/
def dayChars (d₁ d₂ : Char) : Bool :=
  (d₁ = '0' && '1' ≤ d₂ && d₂ ≤ '9') ||
    ((d₁ = '1' || d₁ = '2') && d₂.isDigit) ||
    (d₁ = '3' && (d₂ = '0' || d₂ = '1'))

/-- Sort key returned by `_parse_suffix` (snapshot_discovery.py lines
32-147). -/
inductive SortKey where
  | ver (parts : List ℕ)
  | seq (n : ℕ)
  | date (year month day letterOrd subNum : ℕ)
deriving DecidableEq, Repr

/-- The integer tuple underlying a sort key; the `'ver'/'seq'/'date'` tag
is dropped because the leading 0/1/2 already separates the types, so two
tags compared by Python are always equal. -/
def SortKey.asList : SortKey → List ℕ
  | .ver parts => 0 :: parts
  | .seq n => [1, n]
  | .date y m d l s => [2, y, m, d, l, s]

/-- Python tuple/list `<`: lexicographic, a strict prefix is smaller. -/
def listLtB : List ℕ → List ℕ → Bool
  | [], [] => false
  | [], _ :: _ => true
  | _ :: _, [] => false
  | a :: as, b :: bs => if a < b then true else if b < a then false
      else listLtB as bs

/-- `<` on sort keys, as Python's tuple comparison computes it. -/
def keyLt (k₁ k₂ : SortKey) : Bool :=
  listLtB k₁.asList k₂.asList

/-- Non-strict companion of `keyLt`; `list.sort(key=...)` produces the
unique stable order in which `¬ (key j < key i)` for `i < j`. -/
def keyLe (k₁ k₂ : SortKey) : Bool :=
  !(keyLt k₂ k₁)

/-- Tail `([a-z]?)(?:_(\d+))?$` of pattern 1, returning
`(letter_ord, sub_num)` with `letter_ord = ord(letter) - ord('a') + 1`
for a present letter and `0` otherwise. -/
def parseLetterSub (cs : List Char) : Option (ℕ × ℕ) :=
  match cs with
  | [] => some (0, 0)
  | '_' :: ds =>
    if ds ≠ [] ∧ ds.all (·.isDigit) then some (0, digitsToNat ds) else none
  | l :: rest =>
    if 'a' ≤ l ∧ l ≤ 'z' then
      match rest with
      | [] => some (l.toNat - 'a'.toNat + 1, 0)
      | '_' :: ds =>
        if ds ≠ [] ∧ ds.all (·.isDigit) then
          some (l.toNat - 'a'.toNat + 1, digitsToNat ds)
        else none
      | _ => none
    else none

/-- Pattern 1 (lines 43-51):
`^(\d{4})(0[1-9]|1[0-2])(0[1-9]|[12]\d|3[01])([a-z]?)(?:_(\d+))?$`. -/
def parseDateP1 (cs : List Char) : Option SortKey :=
  match cs with
  | y₁ :: y₂ :: y₃ :: y₄ :: m₁ :: m₂ :: e₁ :: e₂ :: rest =>
    if (y₁.isDigit && y₂.isDigit && y₃.isDigit && y₄.isDigit)
        && monthChars m₁ m₂ && dayChars e₁ e₂ then
      match parseLetterSub rest with
      | some (l, s) => some (.date (digitsToNat [y₁, y₂, y₃, y₄])
          (digitsToNat [m₁, m₂]) (digitsToNat [e₁, e₂]) l s)
      | none => none
    else none
  | _ => none

/-- Pattern 2 (lines 53-59):
`^(\d{2})(0[1-9]|1[0-2])(0[1-9]|[12]\d|3[01])$`, year `2000 + YY`. -/
def parseDateP2 (cs : List Char) : Option SortKey :=
  match cs with
  | [y₁, y₂, m₁, m₂, e₁, e₂] =>
    if (y₁.isDigit && y₂.isDigit) && monthChars m₁ m₂ && dayChars e₁ e₂ then
      some (.date (digitsToNat [y₁, y₂] + 2000) (digitsToNat [m₁, m₂])
        (digitsToNat [e₁, e₂]) 0 0)
    else none
  | _ => none

/-- The date disambiguation of pattern 3 (lines 65-126), written as the
net effect of the branch bodies (the `a > 12` branch assigns `year`
twice with the same value since `a < 100` always holds for a 1-2 digit
component; `year_c = c + 2000` because `c < 100` in every branch that
uses it). -/
def resolveSepDate (a b c : ℕ) : Option SortKey :=
  let ymd : ℕ × ℕ × ℕ :=
    if c ≥ 100 then (c, a, b)
    else if a > 12 then (a + 2000, b, c)
    else if b > 12 then (c + 2000, a, b)
    else if c > 23 then (a + 2000, b, c)
    else (c + 2000, a, b)
  if 1 ≤ ymd.2.1 ∧ ymd.2.1 ≤ 12 ∧ 1 ≤ ymd.2.2 ∧ ymd.2.2 ≤ 31
      ∧ 2000 ≤ ymd.1 ∧ ymd.1 ≤ 2099 then
    some (.date ymd.1 ymd.2.1 ymd.2.2 0 0)
  else none

/-- The match of pattern 3's regex (line 63):
`^(\d{1,2})[-_](\d{1,2})[-_](\d{2,4})$`, returning `(a, b, c)` = the
three integer groups.  The greedy digit runs are what the anchored regex
matches: each of the first two digit groups is delimited by a non-digit
separator and the third is anchored at the end.  (A match with invalid
resolved date components makes `_parse_suffix` return `None` outright,
line 125 — later patterns are not tried.) -/
def parseSepMatch (cs : List Char) : Option (ℕ × ℕ × ℕ) :=
  let g₁ := takeDigits cs
  if 1 ≤ g₁.1.length ∧ g₁.1.length ≤ 2 then
    match g₁.2 with
    | c₁ :: rest₂ =>
      if c₁ = '-' ∨ c₁ = '_' then
        let g₂ := takeDigits rest₂
        if 1 ≤ g₂.1.length ∧ g₂.1.length ≤ 2 then
          match g₂.2 with
          | c₂ :: rest₄ =>
            if c₂ = '-' ∨ c₂ = '_' then
              let g₃ := takeDigits rest₄
              if 2 ≤ g₃.1.length ∧ g₃.1.length ≤ 4 ∧ g₃.2 = [] then
                some (digitsToNat g₁.1, digitsToNat g₂.1, digitsToNat g₃.1)
              else none
            else none
          | [] => none
        else none
      else none
    | [] => none
  else none

/-- Pattern 4 (lines 128-132): `^(\d{3,})$`, an incremental sequence
number. -/
def parseSeq (cs : List Char) : Option SortKey :=
  if 3 ≤ cs.length ∧ cs.all (·.isDigit) then some (.seq (digitsToNat cs))
  else none

/-- Dot-splitting for pattern 5. -/
def splitOnDot : List Char → List (List Char)
  | [] => [[]]
  | '.' :: rest => [] :: splitOnDot rest
  | c :: rest =>
    match splitOnDot rest with
    | g :: gs => (c :: g) :: gs
    | [] => [[c]]

/-- Pattern 5 (lines 134-139): `^(\d+(?:\.\d+)+)$`, a dotted version. -/
def parseVerDotted (cs : List Char) : Option SortKey :=
  let groups := splitOnDot cs
  if 2 ≤ groups.length ∧ groups.all (fun g => g ≠ [] ∧ g.all (·.isDigit)) then
    some (.ver (groups.map digitsToNat))
  else none

/-- Pattern 6 (lines 141-145): `^v(\d+)$`, case-insensitive. -/
def parseVerV (cs : List Char) : Option SortKey :=
  match cs with
  | v :: ds =>
    if (v = 'v' ∨ v = 'V') ∧ ds ≠ [] ∧ ds.all (·.isDigit) then
      some (.ver [digitsToNat ds])
    else none
  | [] => none

/-- `_parse_suffix` (snapshot_discovery.py lines 32-147): try the six
patterns in priority order. -/
def _parse_suffix (suffix : String) : Option SortKey :=
  match parseDateP1 suffix.data with
  | some k => some k
  | none =>
    match parseDateP2 suffix.data with
    | some k => some k
    | none =>
      match parseSepMatch suffix.data with
      | some abc => resolveSepDate abc.1 abc.2.1 abc.2.2
      | none =>
        match parseSeq suffix.data with
        | some k => some k
        | none =>
          match parseVerDotted suffix.data with
          | some k => some k
          | none => parseVerV suffix.data

/-- `_extract_project_and_suffix` (snapshot_discovery.py lines 150-180):
case-insensitive `.zip` check, case-insensitive project-name prefix, a
single `_` separator, and a non-empty suffix. -/
def _extract_project_and_suffix (filename project_name : String) :
    Option String :=
  let f := filename.data
  if (".zip".data).isSuffixOf (f.map Char.toLower) then
    let stem := f.take (f.length - 4)
    let p := project_name.data
    if stem.length ≤ p.length + 1 then none
    else if (stem.take p.length).map Char.toLower = p.map Char.toLower then
      if (stem.drop p.length).take 1 = ['_'] then
        let suffix := stem.drop (p.length + 1)
        if suffix = [] then none else some ⟨suffix⟩
      else none
    else none
  else none

/-- `SnapshotInfo` (lines 23-29).  `path` is
`os.path.join(zip_directory, filename)`; the model elides the constant
directory prefix and keeps the filename. -/
structure SnapshotInfo where
  path : String
  sort_key : SortKey
  label : String
  filename : String
deriving DecidableEq, Repr

/-- Errors raised by `discover_snapshots` (lines 226-236). -/
inductive DiscoverError where
  | unparseable (files : List String)
  | tooFew (found : ℕ)
deriving DecidableEq, Repr

/-- `discover_snapshots` (snapshot_discovery.py lines 183-241) over a
directory `listing` (the `os.listdir` result; all entries are files).
Unparseable matching filenames are a hard error, fewer than two
snapshots is an error, and the result is sorted by sort key with
Python's stable sort. -/
def discover_snapshots (listing : List String) (project_name : String) :
    Except DiscoverError (List SnapshotInfo) :=
  let matched := listing.filterMap (fun fn =>
    (_extract_project_and_suffix fn project_name).map (fun suf => (fn, suf)))
  let unparseable := (matched.filter
    (fun e => (_parse_suffix e.2).isNone)).map (·.1)
  let snapshots := matched.filterMap (fun e =>
    (_parse_suffix e.2).map (fun k => SnapshotInfo.mk e.1 k e.2 e.1))
  if unparseable ≠ [] then .error (.unparseable unparseable)
  else if snapshots.length < 2 then .error (.tooFew snapshots.length)
  else .ok (snapshots.insertionSort
    (fun s₁ s₂ => keyLe s₁.sort_key s₂.sort_key = true))

/-- Unfolding of Python's element-wise tuple comparison. -/
theorem listLtB_cons (a b : ℕ) (as bs : List ℕ) :
    listLtB (a :: as) (b :: bs)
      = (decide (a < b) || (decide (a = b) && listLtB as bs)) := by
  rcases Nat.lt_trichotomy a b with h | rfl | h
  · simp [listLtB, h]
  · simp [listLtB]
  · have h₁ : ¬ a < b := by omega
    have h₂ : ¬ a = b := by omega
    simp [listLtB, h, h₁, h₂]

/-- Python compares equal-length exhausted tuples as equal. -/
theorem listLtB_nil : listLtB [] [] = false := rfl

/-- C6: sort keys order versions before sequences before dates, dates
compare lexicographically by (year, month, day, letter ordinal,
sub-number), and `discover_snapshots` sorts the four scenario-3 files
`proj_20250909_1.zip`, `proj_20250909_2.zip`, `proj_20250923b.zip`,
`proj_20250923.zip` into `20250909_1`, `20250909_2`, `20250923`,
`20250923b`. -/
theorem c6_sort_key_ordering :
    (∀ parts n, keyLt (.ver parts) (.seq n) = true) ∧
    (∀ n y m d l s, keyLt (.seq n) (.date y m d l s) = true) ∧
    (∀ y₁ m₁ d₁ l₁ s₁ y₂ m₂ d₂ l₂ s₂,
      keyLt (.date y₁ m₁ d₁ l₁ s₁) (.date y₂ m₂ d₂ l₂ s₂) = true
        ↔ (y₁ < y₂ ∨ (y₁ = y₂ ∧ (m₁ < m₂ ∨ (m₁ = m₂ ∧ (d₁ < d₂
            ∨ (d₁ = d₂ ∧ (l₁ < l₂ ∨ (l₁ = l₂ ∧ s₁ < s₂))))))))) ∧
    (discover_snapshots ["proj_20250909_1.zip", "proj_20250909_2.zip",
        "proj_20250923b.zip", "proj_20250923.zip"] "proj").toOption.map
        (List.map SnapshotInfo.label)
      = some ["20250909_1", "20250909_2", "20250923", "20250923b"] := by
  refine ⟨?_, ?_, ?_, by decide⟩
  · intro parts n
    simp [keyLt, SortKey.asList, listLtB]
  · intro n y m d l s
    simp [keyLt, SortKey.asList, listLtB]
  · intro y₁ m₁ d₁ l₁ s₁ y₂ m₂ d₂ l₂ s₂
    rw [keyLt, SortKey.asList, SortKey.asList, listLtB_cons]
    simp [listLtB_cons, listLtB_nil]

/-- The dash/underscore date resolution exactly as claim C5 words it:
third component ≥ 100 means MM-DD-YYYY; else first component > 12 means
YY-MM-DD; else second component > 12 means MM-DD-YY; else third
component > 23 means YY-MM-DD; otherwise MM-DD-YY; `None` whenever the
resolved month, day, or year is out of the validated ranges (month
1-12, day 1-31, year 2000-2099). -/
def spec_sep_date_resolution (a b c : ℕ) : Option SortKey :=
  let ymd : ℕ × ℕ × ℕ :=
    if 100 ≤ c then (c, a, b)
    else if 12 < a then (a + 2000, b, c)
    else if 12 < b then (c + 2000, a, b)
    else if 23 < c then (a + 2000, b, c)
    else (c + 2000, a, b)
  if 1 ≤ ymd.2.1 ∧ ymd.2.1 ≤ 12 ∧ 1 ≤ ymd.2.2 ∧ ymd.2.2 ≤ 31
      ∧ 2000 ≤ ymd.1 ∧ ymd.1 ≤ 2099 then
    some (.date ymd.1 ymd.2.1 ymd.2.2 0 0)
  else none

/-- The code's resolution agrees with the claim's wording. -/
theorem resolveSepDate_eq_spec (a b c : ℕ) :
    resolveSepDate a b c = spec_sep_date_resolution a b c := rfl

theorem takeDigits_append (d : List Char) (s : Char) (r : List Char)
    (hd : d.all (·.isDigit) = true) (hs : s.isDigit = false) :
    takeDigits (d ++ s :: r) = (d, s :: r) := by
  induction d with
  | nil => simp [takeDigits, hs]
  | cons c cs ih =>
    simp only [List.all_cons, Bool.and_eq_true] at hd
    simp only [takeDigits, Prod.mk.injEq] at ih
    obtain ⟨ih₁, ih₂⟩ := ih hd.2
    simp [takeDigits, List.takeWhile_cons, List.dropWhile_cons, hd.1,
      ih₁, ih₂]

theorem takeDigits_all (d : List Char) (hd : d.all (·.isDigit) = true) :
    takeDigits d = (d, []) := by
  induction d with
  | nil => rfl
  | cons c cs ih =>
    simp only [List.all_cons, Bool.and_eq_true] at hd
    simp only [takeDigits, Prod.mk.injEq] at ih
    obtain ⟨ih₁, ih₂⟩ := ih hd.2
    simp [takeDigits, List.takeWhile_cons, List.dropWhile_cons, hd.1,
      ih₁, ih₂]

/-- Pattern 1 needs its second character to be a digit. -/
theorem parseDateP1_nondigit₂ (x s : Char) (r : List Char)
    (hs : s.isDigit = false) : parseDateP1 (x :: s :: r) = none := by
  rcases r with _ | ⟨a, _ | ⟨b, _ | ⟨c, _ | ⟨d, _ | ⟨e, _ | ⟨f, r⟩⟩⟩⟩⟩⟩ <;>
    simp [parseDateP1, hs]

/-- Pattern 1 needs its third character to be a digit. -/
theorem parseDateP1_nondigit₃ (x y s : Char) (r : List Char)
    (hs : s.isDigit = false) : parseDateP1 (x :: y :: s :: r) = none := by
  rcases r with _ | ⟨a, _ | ⟨b, _ | ⟨c, _ | ⟨d, _ | ⟨e, r⟩⟩⟩⟩⟩ <;>
    simp [parseDateP1, hs]

/-- Pattern 2 needs its second character to be a digit. -/
theorem parseDateP2_nondigit₂ (x s : Char) (r : List Char)
    (hs : s.isDigit = false) : parseDateP2 (x :: s :: r) = none := by
  rcases r with _ | ⟨a, _ | ⟨b, _ | ⟨c, _ | ⟨d, _ | ⟨e, r⟩⟩⟩⟩⟩ <;>
    simp [parseDateP2, hs]

/-- A month group starts with `0` or `1`, both digits. -/
theorem monthChars_eq_false (m₁ m₂ : Char) (h : m₁.isDigit = false) :
    monthChars m₁ m₂ = false := by
  by_cases h0 : m₁ = '0'
  · subst h0; simp at h
  · by_cases h1 : m₁ = '1'
    · subst h1; simp at h
    · simp [monthChars, h0, h1]

/-- Pattern 2 needs its third character to be a digit (it opens the
month group). -/
theorem parseDateP2_nondigit₃ (x y s : Char) (r : List Char)
    (hs : s.isDigit = false) : parseDateP2 (x :: y :: s :: r) = none := by
  rcases r with _ | ⟨a, _ | ⟨b, _ | ⟨c, _ | ⟨d, r⟩⟩⟩⟩ <;>
    simp [parseDateP2, hs, monthChars_eq_false _ _ hs]

/-- C5: for every suffix of the form `N-N-N` / `N_N_N` (first two
components 1-2 digits, third component 2 or 4 digits), `_parse_suffix`
resolves the date by the claimed priority (third ≥ 100 → MM-DD-YYYY;
first > 12 → YY-MM-DD; second > 12 → MM-DD-YY; third > 23 → YY-MM-DD;
else MM-DD-YY), returning `None` whenever the resolved month, day or
year is out of the validated ranges. -/
theorem c5_sep_date_disambiguation
    (d₁ d₂ d₃ : List Char) (s₁ s₂ : Char)
    (h₁n : d₁ ≠ []) (h₁l : d₁.length ≤ 2) (h₁d : d₁.all (·.isDigit) = true)
    (h₂n : d₂ ≠ []) (h₂l : d₂.length ≤ 2) (h₂d : d₂.all (·.isDigit) = true)
    (h₃l : d₃.length = 2 ∨ d₃.length = 4) (h₃d : d₃.all (·.isDigit) = true)
    (hs₁ : s₁ = '-' ∨ s₁ = '_') (hs₂ : s₂ = '-' ∨ s₂ = '_') :
    _parse_suffix ⟨d₁ ++ s₁ :: (d₂ ++ s₂ :: d₃)⟩
      = spec_sep_date_resolution (digitsToNat d₁) (digitsToNat d₂)
        (digitsToNat d₃) := by
  have hs₁d : s₁.isDigit = false := by
    rcases hs₁ with h | h <;> subst h <;> decide
  have hs₂d : s₂.isDigit = false := by
    rcases hs₂ with h | h <;> subst h <;> decide
  have hp1 : parseDateP1 (d₁ ++ s₁ :: (d₂ ++ s₂ :: d₃)) = none := by
    rcases d₁ with _ | ⟨x, _ | ⟨y, _ | ⟨z, t⟩⟩⟩
    · exact absurd rfl h₁n
    · exact parseDateP1_nondigit₂ _ _ _ hs₁d
    · exact parseDateP1_nondigit₃ _ _ _ _ hs₁d
    · simp at h₁l
  have hp2 : parseDateP2 (d₁ ++ s₁ :: (d₂ ++ s₂ :: d₃)) = none := by
    rcases d₁ with _ | ⟨x, _ | ⟨y, _ | ⟨z, t⟩⟩⟩
    · exact absurd rfl h₁n
    · exact parseDateP2_nondigit₂ _ _ _ hs₁d
    · exact parseDateP2_nondigit₃ _ _ _ _ hs₁d
    · simp at h₁l
  have hsep : parseSepMatch (d₁ ++ s₁ :: (d₂ ++ s₂ :: d₃))
      = some (digitsToNat d₁, digitsToNat d₂, digitsToNat d₃) := by
    have hl₁ : 1 ≤ d₁.length := List.length_pos.mpr h₁n
    have hl₂ : 1 ≤ d₂.length := List.length_pos.mpr h₂n
    have hl₃ : 2 ≤ d₃.length ∧ d₃.length ≤ 4 := by
      rcases h₃l with h | h <;> omega
    simp only [parseSepMatch, takeDigits_append d₁ s₁ _ h₁d hs₁d,
      if_pos (And.intro hl₁ h₁l), if_pos hs₁,
      takeDigits_append d₂ s₂ _ h₂d hs₂d, if_pos (And.intro hl₂ h₂l),
      if_pos hs₂, takeDigits_all d₃ h₃d]
    simp [hl₃.1, hl₃.2]
  show _parse_suffix ⟨d₁ ++ s₁ :: (d₂ ++ s₂ :: d₃)⟩ = _
  rw [← resolveSepDate_eq_spec]
  simp only [_parse_suffix, String.data, hp1, hp2, hsep]

/-- Closed witness for `c5_sep_date_disambiguation` at the suffix
`"8-14-21"` (August 14, 2021 by the MM-DD-YY branch). -/
theorem c5_sep_date_disambiguation_witness :
    _parse_suffix ⟨"8".data ++ '-' :: ("14".data ++ '-' :: "21".data)⟩
      = spec_sep_date_resolution (digitsToNat "8".data)
        (digitsToNat "14".data) (digitsToNat "21".data) :=
  c5_sep_date_disambiguation "8".data "14".data "21".data '-' '-'
    (by decide) (by decide) (by decide) (by decide) (by decide) (by decide)
    (by decide) (by decide) (Or.inl rfl) (Or.inl rfl)

/-! ## Snapshot diff (`snapshot_diff.py`)

`diff_snapshots` is modelled from the point where the two extracted
trees have been walked into `{relative-path → file}` inventories
(archive extraction, wrapper-directory stripping and the binary-extension
skiplist, lines 228-247, are file-system concerns).  A file's content is
an abstract `α`; `hash : α → β` models `_file_hash` (SHA-256) and
`readText : α → Option (List String)` models `_read_text_file` (UTF-8
then Latin-1 decoding with universal newlines; `none` = undecodable).
Python iterates the `only_old` / `only_new` sets in an unspecified
order; the model iterates in inventory order, and the claims proved
below are order-independent. -/

/-- Python string `<` / `sorted()`: lexicographic by code point. -/
def charListLeB : List Char → List Char → Bool
  | [], _ => true
  | _ :: _, [] => false
  | a :: as, b :: bs =>
    if a.toNat < b.toNat then true
    else if b.toNat < a.toNat then false
    else charListLeB as bs

/-- `sorted(...)` over path strings. -/
def pySorted (l : List String) : List String :=
  l.insertionSort (fun a b => charListLeB a.data b.data = true)

/-- `FileDiff` (snapshot_diff.py lines 44-49). -/
structure FileDiff where
  path : String
  diff_text : String
  diff_line_count : ℕ
deriving DecidableEq, Repr

/-- `SnapshotDiff` (lines 52-66); `status_docs` is the dict in insertion
order. -/
structure SnapshotDiff where
  added : List String
  removed : List String
  modified : List FileDiff
  moved : List (String × String)
  unchanged : List String
  total_diff_lines : ℕ
  files_changed_count : ℕ
  new_file_listing : List String
  old_file_listing : List String
  total_lines_in_new : ℕ
  status_docs : List (String × String)
  status_doc_diffs : List FileDiff
deriving DecidableEq, Repr

/-- `os.path.basename` of a `/`-separated relative path (the walker
normalises `\` to `/`, line 127). -/
def pyBasename (p : String) : String :=
  ⟨((p.data.reverse.takeWhile (fun c => c ≠ '/'))).reverse⟩

/-- `STATUS_DOC_NAMES` (lines 34-38). -/
def STATUS_DOC_NAMES : List String :=
  ["status.md", "changelog.md", "todo.md", "notes.md", "readme.md",
   "development.md", "devlog.md", "history.md", "claude.md", "progress.md",
   "release_notes.md", "roadmap.md", "lessons_learned.md"]

/-- `_is_status_doc` (lines 81-89): lower-cased basename in the fixed
set, or starting with one of the `STATUS_DOC_PREFIXES` tags. -/
def _is_status_doc (filepath : String) : Bool :=
  let b := (pyBasename filepath).data.map Char.toLower
  STATUS_DOC_NAMES.any (fun n => n.data = b) ||
    (["devlog", "changelog", "release_notes", "todo"].any
      (fun t => t.data.isPrefixOf b))

/-- Contract model of the standard library's `difflib.unified_diff` as
`_compute_diff` consumes it: the diff is empty exactly when the two line
sequences are equal, and otherwise opens with the `--- a/` / `+++ b/`
file labels.  (The hunk structure is simplified; no claim inspects the
body, only emptiness feeds the modified/unchanged classification.) -/
def unified_diff (old_lines new_lines : List String) (rel_path : String) :
    List String :=
  if old_lines = new_lines then []
  else ("--- a/" ++ rel_path) :: ("+++ b/" ++ rel_path) ::
    (old_lines.map (fun l => "-" ++ l) ++ new_lines.map (fun l => "+" ++ l))

/-- `line.rstrip('\n').rstrip('\r')` of line 184. -/
def rstripNl (s : String) : String :=
  ⟨((s.data.reverse.dropWhile (fun c => c = '\n')).dropWhile
    (fun c => c = '\r')).reverse⟩

/-- `_compute_diff` (snapshot_diff.py lines 153-196): `none` when either
side fails to decode or the unified diff is empty; otherwise the diff
with trailing newlines stripped and an optional truncation marker. -/
def _compute_diff {α : Type} (readText : α → Option (List String))
    (old_c new_c : α) (rel_path : String) (max_lines : ℕ) :
    Option FileDiff :=
  match readText old_c, readText new_c with
  | some old_lines, some new_lines =>
    let diff_lines := unified_diff old_lines new_lines rel_path
    if diff_lines = [] then none
    else
      let stripped := diff_lines.map rstripNl
      let final := if 0 < max_lines ∧ max_lines < stripped.length then
          stripped.take max_lines
            ++ ["\n... (" ++ toString (stripped.length - max_lines)
                ++ " more lines truncated)"]
        else stripped
      some ⟨rel_path, String.intercalate "\n" final, final.length⟩
  | _, _ => none

/-- `hashes.setdefault(h, []).append(path)`: append to the group of `h`,
creating it at the end on first sight (Python dict key order). -/
def addToGroups {β : Type} [DecidableEq β] :
    List (β × List String) → β → String → List (β × List String)
  | [], h, p => [(h, [p])]
  | g :: gs, h, p =>
    if g.1 = h then (g.1, g.2 ++ [p]) :: gs else g :: addToGroups gs h p

/-- The `old_hashes` / `new_hashes` dictionaries (lines 255-263): hash →
paths carrying it, in iteration order. -/
def buildGroups {α β : Type} [DecidableEq β] (hash : α → β)
    (entries : List (String × α)) : List (β × List String) :=
  entries.foldl (fun gs e => addToGroups gs (hash e.2) e.1) []

/-- Files present only in the old snapshot (`only_old`), with their
contents. -/
def only_old_entries {α : Type} (old_files new_files : List (String × α)) :
    List (String × α) :=
  old_files.filter (fun e => decide (e.1 ∉ new_files.map Prod.fst))

/-- Files present only in the new snapshot (`only_new`), with their
contents. -/
def only_new_entries {α : Type} (old_files new_files : List (String × α)) :
    List (String × α) :=
  new_files.filter (fun e => decide (e.1 ∉ old_files.map Prod.fst))

/-- Move detection (lines 266-277): for every hash with files on both
only-sides, pair the two path groups positionally (`zip` truncates at
the shorter group). -/
def moved_pairs {α β : Type} [DecidableEq β] (hash : α → β)
    (old_files new_files : List (String × α)) : List (String × String) :=
  (buildGroups hash (only_old_entries old_files new_files)).flatMap
    (fun g =>
      match lookupA (buildGroups hash (only_new_entries old_files new_files))
          g.1 with
      | some ng => g.2.zip ng
      | none => [])

/-- The hash of the file stored at `p`, if any. -/
def hashAt {α β : Type} (hash : α → β) (files : List (String × α))
    (p : String) : Option β :=
  (lookupA files p).map hash

/-- `diff_snapshots` (snapshot_diff.py lines 199-335) from the walked
inventories on.  The single classification loop over `sorted(common)`
(lines 287-298) appends every common path to exactly one of
`modified` / `unchanged`; it is rendered as one `filterMap` and one
`filter` over the same list, which produce the same contents in the same
order. -/
def diff_snapshots {α β : Type} [DecidableEq β] (hash : α → β)
    (readText : α → Option (List String))
    (old_files new_files : List (String × α)) (max_diff_lines : ℕ) :
    SnapshotDiff :=
  let old_paths := old_files.map Prod.fst
  let new_paths := new_files.map Prod.fst
  let common := old_paths.filter (fun p => decide (p ∈ new_paths))
  let moved_raw := moved_pairs hash old_files new_files
  let moved_old := moved_raw.map Prod.fst
  let moved_new := moved_raw.map Prod.snd
  let added := pySorted (((only_new_entries old_files new_files).map
    Prod.fst).filter (fun p => decide (p ∉ moved_new)))
  let removed := pySorted (((only_old_entries old_files new_files).map
    Prod.fst).filter (fun p => decide (p ∉ moved_old)))
  let moved := moved_raw.insertionSort
    (fun x y => charListLeB x.2.data y.2.data = true)
  let sorted_common := pySorted common
  let modified := sorted_common.filterMap (fun p =>
    match lookupA old_files p, lookupA new_files p with
    | some co, some cn =>
      if hash co = hash cn then none
      else _compute_diff readText co cn p max_diff_lines
    | _, _ => none)
  let unchanged := sorted_common.filter (fun p =>
    match lookupA old_files p, lookupA new_files p with
    | some co, some cn =>
      if hash co = hash cn then true
      else (_compute_diff readText co cn p max_diff_lines).isNone
    | _, _ => false)
  let total_diff_lines := (modified.map FileDiff.diff_line_count).sum
  let total_lines_in_new := (new_files.map (fun e =>
    match readText e.2 with
    | some ls => ls.length
    | none => 0)).sum
  let status_docs := new_files.filterMap (fun e =>
    if _is_status_doc e.1 then
      (readText e.2).map (fun ls => (e.1, String.join ls))
    else none)
  let status_doc_diffs := modified.filter (fun fd => _is_status_doc fd.path)
  { added := added
    removed := removed
    modified := modified
    moved := moved
    unchanged := unchanged
    total_diff_lines := total_diff_lines
    files_changed_count := added.length + removed.length + modified.length
      + moved.length
    new_file_listing := pySorted new_paths
    old_file_listing := pySorted old_paths
    total_lines_in_new := total_lines_in_new
    status_docs := status_docs
    status_doc_diffs := status_doc_diffs }


theorem mem_of_lookupA_some {κ α : Type} [DecidableEq κ]
    {l : List (κ × α)} {k : κ} {v : α} (h : lookupA l k = some v) :
    (k, v) ∈ l := by
  induction l with
  | nil => simp [lookupA] at h
  | cons e rest ih =>
    obtain ⟨k₀, v₀⟩ := e
    by_cases hk : k₀ = k
    · subst hk
      simp only [lookupA, if_true, eq_self_iff_true, Option.some.injEq] at h
      subst h
      exact List.mem_cons_self _ _
    · simp only [lookupA, hk, if_false] at h
      exact List.mem_cons_of_mem _ (ih h)

theorem lookupA_some_of_mem_nodup {κ α : Type} [DecidableEq κ]
    {l : List (κ × α)} {k : κ} {v : α} (hmem : (k, v) ∈ l)
    (hnd : (l.map Prod.fst).Nodup) : lookupA l k = some v := by
  induction l with
  | nil => simp at hmem
  | cons e rest ih =>
    simp only [List.map_cons, List.nodup_cons] at hnd
    rcases List.mem_cons.mp hmem with heq | hmem'
    · subst heq
      simp [lookupA]
    · have hk : e.1 ≠ k := by
        intro h
        exact hnd.1 (h ▸ List.mem_map.mpr ⟨(k, v), hmem', rfl⟩)
      simp [lookupA, hk, ih hmem' hnd.2]

/-- The paths of `entries` whose content hashes to `h`, in order: the
group that `buildGroups` associates with `h`. -/
def group_paths {α β : Type} [DecidableEq β] (hash : α → β)
    (entries : List (String × α)) (h : β) : List String :=
  (entries.filter (fun e => decide (hash e.2 = h))).map Prod.fst

theorem lookupA_addToGroups_self {β : Type} [DecidableEq β]
    (gs : List (β × List String)) (h : β) (p : String) :
    lookupA (addToGroups gs h p) h = some ((lookupA gs h).getD [] ++ [p]) := by
  induction gs with
  | nil => simp [addToGroups, lookupA]
  | cons g gs ih =>
    by_cases hg : g.1 = h
    · simp [addToGroups, lookupA, hg]
    · simp [addToGroups, lookupA, hg, ih]

theorem lookupA_addToGroups_ne {β : Type} [DecidableEq β]
    (gs : List (β × List String)) (h h' : β) (p : String) (hne : h ≠ h') :
    lookupA (addToGroups gs h p) h' = lookupA gs h' := by
  induction gs with
  | nil => simp [addToGroups, lookupA, hne]
  | cons g gs ih =>
    by_cases hg : g.1 = h
    · have hgh : g.1 ≠ h' := hg ▸ hne
      simp [addToGroups, lookupA, hg, hgh, hne]
    · simp [addToGroups, lookupA, hg, ih]

theorem lookupA_buildGroups_aux {α β : Type} [DecidableEq β]
    (hash : α → β) (h : β) :
    ∀ (entries : List (String × α)) (gs₀ : List (β × List String)),
    lookupA (entries.foldl (fun gs e => addToGroups gs (hash e.2) e.1) gs₀) h
      = match lookupA gs₀ h with
        | some ps => some (ps ++ group_paths hash entries h)
        | none =>
          if group_paths hash entries h = [] then none
          else some (group_paths hash entries h) := by
  intro entries
  induction entries with
  | nil =>
    intro gs₀
    cases hL : lookupA gs₀ h <;> simp [group_paths, hL]
  | cons e rest ih =>
    intro gs₀
    show lookupA (rest.foldl _ (addToGroups gs₀ (hash e.2) e.1)) h = _
    by_cases he : hash e.2 = h
    · have hgp : group_paths hash (e :: rest) h
          = e.1 :: group_paths hash rest h := by
        simp [group_paths, List.filter_cons, he]
      rw [ih (addToGroups gs₀ (hash e.2) e.1), he,
        lookupA_addToGroups_self gs₀ h e.1, hgp]
      cases hL : lookupA gs₀ h <;> simp [hL]
    · have hgp : group_paths hash (e :: rest) h = group_paths hash rest h := by
        simp [group_paths, List.filter_cons, he]
      rw [ih (addToGroups gs₀ (hash e.2) e.1),
        lookupA_addToGroups_ne gs₀ (hash e.2) h e.1 he, hgp]

/-- The dictionary built by `buildGroups` maps each hash to exactly the
paths of the entries carrying it, in iteration order. -/
theorem lookupA_buildGroups {α β : Type} [DecidableEq β] (hash : α → β)
    (entries : List (String × α)) (h : β) :
    lookupA (buildGroups hash entries) h
      = if group_paths hash entries h = [] then none
        else some (group_paths hash entries h) := by
  have := lookupA_buildGroups_aux hash h entries []
  simpa [buildGroups, lookupA] using this

theorem addToGroups_fst {β : Type} [DecidableEq β]
    (gs : List (β × List String)) (h : β) (p : String) :
    (addToGroups gs h p).map Prod.fst
      = if h ∈ gs.map Prod.fst then gs.map Prod.fst
        else gs.map Prod.fst ++ [h] := by
  induction gs with
  | nil => simp [addToGroups]
  | cons g gs ih =>
    by_cases hg : g.1 = h
    · simp [addToGroups, hg]
    · by_cases hmem : h ∈ gs.map Prod.fst <;>
        simp [addToGroups, hg, ih, hmem, Ne.symm hg]

theorem buildGroups_nodup_fst {α β : Type} [DecidableEq β] (hash : α → β)
    (entries : List (String × α)) :
    ((buildGroups hash entries).map Prod.fst).Nodup := by
  suffices H : ∀ (es : List (String × α)) (gs₀ : List (β × List String)),
      (gs₀.map Prod.fst).Nodup →
      ((es.foldl (fun gs e => addToGroups gs (hash e.2) e.1) gs₀).map
        Prod.fst).Nodup by
    exact H entries [] (by simp)
  intro es
  induction es with
  | nil => exact fun gs₀ h => h
  | cons e rest ih =>
    intro gs₀ hnd
    apply ih
    rw [addToGroups_fst]
    by_cases hm : hash e.2 ∈ gs₀.map Prod.fst
    · simpa [hm] using hnd
    · simp [hm, List.nodup_append, hnd]

theorem zip_left_surplus {γ δ : Type} {a : γ} {l₁ : List γ} {l₂ : List δ}
    (ha : a ∈ l₁) (hn : a ∉ (l₁.zip l₂).map Prod.fst) :
    l₂.length < l₁.length := by
  by_contra hle
  push_neg at hle
  rw [List.map_fst_zip l₁ l₂ hle] at hn
  exact hn ha

theorem zip_right_surplus {γ δ : Type} {b : δ} {l₁ : List γ} {l₂ : List δ}
    (hb : b ∈ l₂) (hn : b ∉ (l₁.zip l₂).map Prod.snd) :
    l₁.length < l₂.length := by
  by_contra hle
  push_neg at hle
  rw [List.map_snd_zip l₁ l₂ hle] at hn
  exact hn hb

/-- Every positionally-paired move joins two files with the same hash. -/
theorem moved_pairs_hash_eq {α β : Type} [DecidableEq β] (hash : α → β)
    (old_files new_files : List (String × α))
    (hO : (old_files.map Prod.fst).Nodup)
    (hN : (new_files.map Prod.fst).Nodup)
    {op np : String}
    (hmem : (op, np) ∈ moved_pairs hash old_files new_files) :
    ∃ h, hashAt hash old_files op = some h
      ∧ hashAt hash new_files np = some h := by
  rw [moved_pairs, List.mem_flatMap] at hmem
  obtain ⟨g, hg, hzip⟩ := hmem
  cases hL : lookupA (buildGroups hash
      (only_new_entries old_files new_files)) g.1 with
  | none => rw [hL] at hzip; simp at hzip
  | some ng =>
    rw [hL] at hzip
    obtain ⟨hop, hnp⟩ := List.of_mem_zip hzip
    have hgl := lookupA_some_of_mem_nodup hg (buildGroups_nodup_fst hash _)
    rw [lookupA_buildGroups] at hgl hL
    have hg2 : g.2 = group_paths hash
        (only_old_entries old_files new_files) g.1 := by
      by_cases hemp : group_paths hash
          (only_old_entries old_files new_files) g.1 = []
      · rw [if_pos hemp] at hgl; exact absurd hgl (by simp)
      · rw [if_neg hemp] at hgl
        injection hgl with hgl
        exact hgl.symm
    have hng : ng = group_paths hash
        (only_new_entries old_files new_files) g.1 := by
      by_cases hemp : group_paths hash
          (only_new_entries old_files new_files) g.1 = []
      · rw [if_pos hemp] at hL; exact absurd hL (by simp)
      · rw [if_neg hemp] at hL
        injection hL with hL
        exact hL.symm
    rw [hg2] at hop
    rw [hng] at hnp
    obtain ⟨eo, heo, heo1⟩ := List.mem_map.mp hop
    obtain ⟨en, hen, hen1⟩ := List.mem_map.mp hnp
    have heof := List.mem_filter.mp heo
    have henf := List.mem_filter.mp hen
    have heoh : hash eo.2 = g.1 := by simpa using heof.2
    have henh : hash en.2 = g.1 := by simpa using henf.2
    have heoO : eo ∈ old_files := by
      have := heof.1
      rw [only_old_entries] at this
      exact List.mem_of_mem_filter this
    have henN : en ∈ new_files := by
      have := henf.1
      rw [only_new_entries] at this
      exact List.mem_of_mem_filter this
    have hlo : lookupA old_files op = some eo.2 := by
      apply lookupA_some_of_mem_nodup _ hO
      obtain ⟨e1, e2⟩ := eo
      cases heo1
      exact heoO
    have hln : lookupA new_files np = some en.2 := by
      apply lookupA_some_of_mem_nodup _ hN
      obtain ⟨e1, e2⟩ := en
      cases hen1
      exact henN
    exact ⟨g.1, by simp [hashAt, hlo, heoh], by simp [hashAt, hln, henh]⟩

/-- A surplus file on one only-side and a surplus file on the other
only-side can never carry the same hash: the positional pairing exhausts
the shorter group. -/
theorem surplus_hash_clash {α β : Type} [DecidableEq β] (hash : α → β)
    (old_files new_files : List (String × α))
    (hO : (old_files.map Prod.fst).Nodup)
    (hN : (new_files.map Prod.fst).Nodup)
    {p q : String} {h : β}
    (hp : p ∈ (only_new_entries old_files new_files).map Prod.fst)
    (hpm : p ∉ (moved_pairs hash old_files new_files).map Prod.snd)
    (hq : q ∈ (only_old_entries old_files new_files).map Prod.fst)
    (hqm : q ∉ (moved_pairs hash old_files new_files).map Prod.fst)
    (hhp : hashAt hash new_files p = some h)
    (hhq : hashAt hash old_files q = some h) : False := by
  obtain ⟨ep, hep, hep1⟩ := List.mem_map.mp hp
  obtain ⟨eq', heq, heq1⟩ := List.mem_map.mp hq
  have hepN : ep ∈ new_files := by
    have := hep
    rw [only_new_entries] at this
    exact List.mem_of_mem_filter this
  have heqO : eq' ∈ old_files := by
    have := heq
    rw [only_old_entries] at this
    exact List.mem_of_mem_filter this
  have hlp : lookupA new_files p = some ep.2 := by
    apply lookupA_some_of_mem_nodup _ hN
    obtain ⟨e1, e2⟩ := ep
    cases hep1
    exact hepN
  have hlq : lookupA old_files q = some eq'.2 := by
    apply lookupA_some_of_mem_nodup _ hO
    obtain ⟨e1, e2⟩ := eq'
    cases heq1
    exact heqO
  have hph : hash ep.2 = h := by
    rw [hashAt, hlp] at hhp
    simpa using hhp
  have hqh : hash eq'.2 = h := by
    rw [hashAt, hlq] at hhq
    simpa using hhq
  have hpg : p ∈ group_paths hash (only_new_entries old_files new_files) h :=
    List.mem_map.mpr ⟨ep, List.mem_filter.mpr ⟨hep, by simp [hph]⟩, hep1⟩
  have hqg : q ∈ group_paths hash (only_old_entries old_files new_files) h :=
    List.mem_map.mpr ⟨eq', List.mem_filter.mpr ⟨heq, by simp [hqh]⟩, heq1⟩
  have hLn : lookupA (buildGroups hash
      (only_new_entries old_files new_files)) h
      = some (group_paths hash (only_new_entries old_files new_files) h) := by
    rw [lookupA_buildGroups, if_neg]
    intro hc
    rw [hc] at hpg
    simp at hpg
  have hLo : lookupA (buildGroups hash
      (only_old_entries old_files new_files)) h
      = some (group_paths hash (only_old_entries old_files new_files) h) := by
    rw [lookupA_buildGroups, if_neg]
    intro hc
    rw [hc] at hqg
    simp at hqg
  have hmemo := mem_of_lookupA_some hLo
  have hsub : ∀ x ∈ (group_paths hash
        (only_old_entries old_files new_files) h).zip
        (group_paths hash (only_new_entries old_files new_files) h),
      x ∈ moved_pairs hash old_files new_files := by
    intro x hx
    rw [moved_pairs, List.mem_flatMap]
    refine ⟨(h, group_paths hash (only_old_entries old_files new_files) h),
      hmemo, ?_⟩
    rw [hLn]
    exact hx
  have h₁ : (group_paths hash (only_new_entries old_files new_files)
      h).length
      < (group_paths hash (only_old_entries old_files new_files) h).length := by
    apply zip_left_surplus hqg
    intro hmm
    obtain ⟨x, hx, hx1⟩ := List.mem_map.mp hmm
    exact hqm (List.mem_map.mpr ⟨x, hsub x hx, hx1⟩)
  have h₂ : (group_paths hash (only_old_entries old_files new_files)
      h).length
      < (group_paths hash (only_new_entries old_files new_files) h).length := by
    apply zip_right_surplus hpg
    intro hmm
    obtain ⟨x, hx, hx1⟩ := List.mem_map.mp hmm
    exact hpm (List.mem_map.mpr ⟨x, hsub x hx, hx1⟩)
  omega

/-- C3 counterexample: old snapshot `{b1 ↦ X}`, new snapshot
`{c1 ↦ X, c2 ↦ X}` (all three files share one content hash).  Move
detection pairs `b1 → c1`; the surplus copy `c2` is classified *added*
and shares its content hash with `b1` on the opposite snapshot side —
so "no file in added or removed shares a content hash with any file on
the opposite snapshot side" is false as stated. -/
theorem c3_added_shares_hash_with_opposite_side :
    ("b1", "c1") ∈ (diff_snapshots (id : ℕ → ℕ) (fun _ => some [])
        [("b1", 0)] [("c1", 0), ("c2", 0)] 0).moved
      ∧ (diff_snapshots (id : ℕ → ℕ) (fun _ => some [])
        [("b1", 0)] [("c1", 0), ("c2", 0)] 0).added = ["c2"]
      ∧ ("b1", (0 : ℕ)) ∈ [("b1", (0 : ℕ))]
      ∧ hashAt (id : ℕ → ℕ) [("c1", 0), ("c2", 0)] "c2"
        = hashAt (id : ℕ → ℕ) [("b1", 0)] "b1" := by
  decide

/-- C3 (amended): every moved pair has identical content hashes, and no
*added* file shares a content hash with a *removed* file (the claim's
"any file on the opposite snapshot side" weakened to the opposite
only-side surplus, i.e. the removed/added files, which the
counterexample forces: an added file may share a hash with an unchanged
or moved-from file of the opposite snapshot). -/
theorem c3_amended_move_hash_invariant {α β : Type} [DecidableEq β]
    (hash : α → β) (readText : α → Option (List String))
    (old_files new_files : List (String × α)) (max_diff_lines : ℕ)
    (hO : (old_files.map Prod.fst).Nodup)
    (hN : (new_files.map Prod.fst).Nodup) :
    (∀ op np, (op, np) ∈ (diff_snapshots hash readText old_files new_files
          max_diff_lines).moved →
        hashAt hash old_files op = hashAt hash new_files np
          ∧ (hashAt hash old_files op).isSome = true) ∧
    (∀ p q hp hq, p ∈ (diff_snapshots hash readText old_files new_files
          max_diff_lines).added →
        q ∈ (diff_snapshots hash readText old_files new_files
          max_diff_lines).removed →
        hashAt hash new_files p = some hp →
        hashAt hash old_files q = some hq → hp ≠ hq) := by
  constructor
  · intro op np hmem
    simp only [diff_snapshots] at hmem
    have hraw : (op, np) ∈ moved_pairs hash old_files new_files :=
      ((List.perm_insertionSort _ _).mem_iff).mp hmem
    obtain ⟨h, h1, h2⟩ := moved_pairs_hash_eq hash old_files new_files hO hN
      hraw
    rw [h1, h2]
    exact ⟨rfl, rfl⟩
  · intro p q hp hq hpmem hqmem hhp hhq heq
    subst heq
    simp only [diff_snapshots] at hpmem hqmem
    have hpf := ((List.perm_insertionSort _ _).mem_iff).mp hpmem
    have hqf := ((List.perm_insertionSort _ _).mem_iff).mp hqmem
    obtain ⟨hpo, hpm⟩ := List.mem_filter.mp hpf
    obtain ⟨hqo, hqm⟩ := List.mem_filter.mp hqf
    exact surplus_hash_clash hash old_files new_files hO hN hpo
      (by simpa using hpm) hqo (by simpa using hqm) hhp hhq

/-- Closed witness for `c3_amended_move_hash_invariant` on a diff with
one move (`m1 → m2`), one added file `p` and one removed file `q`. -/
theorem c3_amended_move_hash_invariant_witness :
    (hashAt (id : ℕ → ℕ) [("m1", 0), ("q", 1)] "m1"
        = hashAt (id : ℕ → ℕ) [("m2", 0), ("p", 2)] "m2"
      ∧ (hashAt (id : ℕ → ℕ) [("m1", 0), ("q", 1)] "m1").isSome = true)
      ∧ (2 : ℕ) ≠ 1 :=
  ⟨(c3_amended_move_hash_invariant (id : ℕ → ℕ) (fun _ => some [])
      [("m1", 0), ("q", 1)] [("m2", 0), ("p", 2)] 0
      (by decide) (by decide)).1 "m1" "m2" (by decide),
   (c3_amended_move_hash_invariant (id : ℕ → ℕ) (fun _ => some [])
      [("m1", 0), ("q", 1)] [("m2", 0), ("p", 2)] 0
      (by decide) (by decide)).2 "p" "q" 2 1 (by decide) (by decide)
      (by decide) (by decide)⟩

/-- The `FileDiff` produced by `_compute_diff` carries the path it was
asked about. -/
theorem _compute_diff_path {α : Type} (readText : α → Option (List String))
    (a b : α) (p : String) (m : ℕ) (fd : FileDiff)
    (h : _compute_diff readText a b p m = some fd) : fd.path = p := by
  rw [_compute_diff] at h
  cases h₁ : readText a with
  | none => rw [h₁] at h; simp at h
  | some ol =>
    cases h₂ : readText b with
    | none => rw [h₁, h₂] at h; simp at h
    | some nl =>
      rw [h₁, h₂] at h
      by_cases he : unified_diff ol nl p = []
      · simp [he] at h
      · simp only [he, if_false, Option.some.injEq] at h
        rw [← h]

/-- C9: a path present in both snapshots whose content hashes differ but
whose decoded line sequences are equal is classified *unchanged*, and
never appears among the modified diffs: the hash mismatch sends it to
`_compute_diff`, whose unified diff of two equal line lists is empty, so
no `FileDiff` is produced and the path falls through to `unchanged`. -/
theorem c9_equal_lines_unchanged {α β : Type} [DecidableEq β]
    (hash : α → β) (readText : α → Option (List String))
    (old_files new_files : List (String × α)) (max_diff_lines : ℕ)
    (p : String) (co cn : α) (lines : List String)
    (hco : lookupA old_files p = some co)
    (hcn : lookupA new_files p = some cn)
    (hhash : hash co ≠ hash cn)
    (hro : readText co = some lines)
    (hrn : readText cn = some lines) :
    p ∈ (diff_snapshots hash readText old_files new_files
        max_diff_lines).unchanged
      ∧ p ∉ ((diff_snapshots hash readText old_files new_files
        max_diff_lines).modified.map FileDiff.path) := by
  have hpo : p ∈ old_files.map Prod.fst :=
    List.mem_map.mpr ⟨(p, co), mem_of_lookupA_some hco, rfl⟩
  have hpn : p ∈ new_files.map Prod.fst :=
    List.mem_map.mpr ⟨(p, cn), mem_of_lookupA_some hcn, rfl⟩
  have hcommon : p ∈ (old_files.map Prod.fst).filter
      (fun q => decide (q ∈ new_files.map Prod.fst)) :=
    List.mem_filter.mpr ⟨hpo, by simpa using hpn⟩
  have hcd : _compute_diff readText co cn p max_diff_lines = none := by
    rw [_compute_diff, hro, hrn]
    simp [unified_diff]
  have hmem_sorted : p ∈ pySorted ((old_files.map Prod.fst).filter
      (fun q => decide (q ∈ new_files.map Prod.fst))) := by
    rw [pySorted]
    exact ((List.perm_insertionSort _ _).mem_iff).mpr hcommon
  constructor
  · simp only [diff_snapshots]
    refine List.mem_filter.mpr ⟨hmem_sorted, ?_⟩
    simp only [hco, hcn]
    rw [if_neg hhash, hcd]
    rfl
  · simp only [diff_snapshots]
    intro hmem
    obtain ⟨fd, hfd, hfdp⟩ := List.mem_map.mp hmem
    obtain ⟨q, hq, hfq⟩ := List.mem_filterMap.mp hfd
    split at hfq
    · rename_i co' cn' hlo hln
      by_cases hh : hash co' = hash cn'
      · rw [if_pos hh] at hfq
        exact Option.noConfusion hfq
      · rw [if_neg hh] at hfq
        have hqp : fd.path = q :=
          _compute_diff_path readText co' cn' q max_diff_lines fd hfq
        have hqeq : q = p := by rw [← hqp, hfdp]
        subst hqeq
        rw [hco] at hlo
        rw [hcn] at hln
        obtain rfl : co = co' := Option.some.inj hlo
        obtain rfl : cn = cn' := Option.some.inj hln
        rw [hcd] at hfq
        exact Option.noConfusion hfq
    · exact Option.noConfusion hfq

/-- Closed witness for `c9_equal_lines_unchanged`: same path on both
sides, contents hashing to `0` and `1` but both decoding to the single
line `"x"`. -/
theorem c9_equal_lines_unchanged_witness :
    "a.txt" ∈ (diff_snapshots (id : ℕ → ℕ) (fun _ => some ["x"])
        [("a.txt", 0)] [("a.txt", 1)] 0).unchanged
      ∧ "a.txt" ∉ ((diff_snapshots (id : ℕ → ℕ) (fun _ => some ["x"])
        [("a.txt", 0)] [("a.txt", 1)] 0).modified.map FileDiff.path) :=
  c9_equal_lines_unchanged (id : ℕ → ℕ) (fun _ => some ["x"])
    [("a.txt", 0)] [("a.txt", 1)] 0 "a.txt" 0 1 ["x"]
    (by decide) (by decide) (by decide) rfl rfl

/-- `BreakpointResult` (change_analyzer.py lines 15-20).  The
reporting-only `distribution_stats` dict is omitted: it is never read
back by the planner. -/
structure BreakpointResult where
  minor_threshold : ℚ
  major_threshold : ℚ
deriving DecidableEq, Repr

/-- Python `round(v)` (round half to even) on the exact rational value of
`v`; floats are modelled throughout as exact rationals.  On a half-way
value the even neighbour is `2 * round (x / 2)`. -/
def roundHalfEven (x : ℚ) : ℤ :=
  if Int.fract x = 1 / 2 then 2 * round (x / 2) else round x

/-- Python `round(x, n)`. -/
def pyRound (x : ℚ) (n : ℕ) : ℚ :=
  (roundHalfEven (x * 10 ^ n) : ℚ) / 10 ^ n

/-- `median_val` of change_analyzer.py line 101, over the sorted list. -/
def fb_median (s : List ℚ) : ℚ :=
  if s.length % 2 = 1 then s.getD (s.length / 2) 0
  else (s.getD (s.length / 2 - 1) 0 + s.getD (s.length / 2) 0) / 2

/-- `mean_val` (line 100). -/
def fb_mean (s : List ℚ) : ℚ := s.sum / s.length

/-- `variance` (line 102). -/
def fb_variance (s : List ℚ) : ℚ :=
  ((s.map (fun x => (x - fb_mean s) ^ 2)).sum) / s.length

/-- `q1` (line 104). -/
def fb_q1 (s : List ℚ) : ℚ :=
  if 4 ≤ s.length then s.getD (s.length / 4) 0 else s.getD 0 0

/-- `q3` (line 105): `sorted_mags[-1]` for fewer than four values. -/
def fb_q3 (s : List ℚ) : ℚ :=
  if 4 ≤ s.length then s.getD (3 * s.length / 4) 0
  else s.getD (s.length - 1) 0

/-- The `(gap, i)` pairs of lines 138-141. -/
def gapPairs (s : List ℚ) : List (ℚ × ℕ) :=
  (List.range (s.length - 1)).map
    (fun i => (s.getD (i + 1) 0 - s.getD i 0, i))

/-- `gaps.sort(reverse=True)` (line 144): descending lexicographic order
on `(gap, index)` pairs. -/
def gapDescB (a b : ℚ × ℕ) : Bool :=
  decide (b.1 < a.1 ∨ (b.1 = a.1 ∧ b.2 ≤ a.2))

def gapsSorted (s : List ℚ) : List (ℚ × ℕ) :=
  (gapPairs s).insertionSort (fun a b => gapDescB a b = true)

/-- `gaps[k][1]`, the index component of the `k`-th largest gap. -/
def gIdx (s : List ℚ) (k : ℕ) : ℕ := ((gapsSorted s).getD k (0, 0)).2

/-- Midpoint threshold `(sorted_mags[i] + sorted_mags[i+1]) / 2`
(lines 152-153, 159). -/
def midGap (s : List ℚ) (i : ℕ) : ℚ :=
  (s.getD i 0 + s.getD (i + 1) 0) / 2

/-- Gap-based natural breaks, change_analyzer.py lines 136-175:
the two largest gaps give the two thresholds (`break_indices` is the
sorted index pair, hence `min`/`max`); if they collapse, the largest gap
alone sets `minor` and `major` is pushed halfway to the maximum
(lines 156-160); with fewer than two gaps the midpoint fallback of
lines 166-168 applies. -/
def fb_gap (s : List ℚ) : BreakpointResult :=
  if 2 ≤ (gapsSorted s).length then
    if midGap s (max (gIdx s 0) (gIdx s 1))
        ≤ midGap s (min (gIdx s 0) (gIdx s 1)) then
      ⟨pyRound (midGap s (gIdx s 0)) 6,
       pyRound (midGap s (gIdx s 0)
         + (s.getD (s.length - 1) 0 - midGap s (gIdx s 0)) * (1 / 2)) 6⟩
    else
      ⟨pyRound (midGap s (min (gIdx s 0) (gIdx s 1))) 6,
       pyRound (midGap s (max (gIdx s 0) (gIdx s 1))) 6⟩
  else
    ⟨pyRound ((s.getD 0 0 + s.getD (s.length - 1) 0) / 3) 6,
     pyRound (2 * (s.getD 0 0 + s.getD (s.length - 1) 0) / 3) 6⟩

/-- `find_breakpoints` on the non-empty, sorted magnitude list
(change_analyzer.py lines 96-175).  The uniform-distribution test
`std_dev < mean_val * 0.3 and mean_val > 0` (line 128) is rendered
without the square root: for `mean_val > 0` it is equivalent to
`variance < (mean_val * 0.3) ^ 2`, and for `mean_val <= 0` both
conjunctions are false. -/
def fbBody (s : List ℚ) : BreakpointResult :=
  if s.length < 5 then
    ⟨pyRound (fb_median s) 6,
     if 4 ≤ s.length then pyRound (fb_q3 s) 6
     else pyRound (s.getD (s.length - 1) 0 * (4 / 5)) 6⟩
  else if fb_variance s < (fb_mean s * (3 / 10)) ^ 2 ∧ 0 < fb_mean s then
    ⟨pyRound (fb_q1 s) 6, pyRound (fb_q3 s) 6⟩
  else fb_gap s

/-- `find_breakpoints` (change_analyzer.py lines 71-175). -/
def find_breakpoints (magnitudes : List ℚ) : BreakpointResult :=
  if magnitudes = [] then ⟨1 / 20, 1 / 5⟩
  else fbBody (magnitudes.insertionSort (· ≤ ·))

/-- `AnalysisUnit` (change_analyzer.py lines 23-31).  The free-text
`description` field is omitted (pure reporting). -/
structure AnalysisUnit where
  snapshot_range : ℕ × ℕ
  transitions : List ℕ
  tier : String
  total_magnitude : ℚ
  is_inflection_point : Bool
deriving DecidableEq, Repr

/-- `flush_minor_batch` (change_analyzer.py lines 210-239): a singleton
batch becomes a `minor` unit carrying `magnitudes[idx]`
(`getD` stands in for the always-in-bounds index), a longer batch a
`minor_batch` unit carrying the accumulated magnitude. -/
def flushBatch (magnitudes : List ℚ) (batch : List ℕ) (bmag : ℚ) :
    List AnalysisUnit :=
  match batch with
  | [] => []
  | [idx] => [{ snapshot_range := (idx, idx + 1), transitions := [idx],
                tier := "minor", total_magnitude := magnitudes.getD idx 0,
                is_inflection_point := false }]
  | first :: rest =>
      [{ snapshot_range := (first, rest.getLastD first + 1),
         transitions := first :: rest, tier := "minor_batch",
         total_magnitude := bmag, is_inflection_point := false }]

/-- The enumeration loop of change_analyzer.py lines 241-271, with the
pending minor batch and its accumulated magnitude passed explicitly. -/
def planLoop (magnitudes : List ℚ) (minor major : ℚ) :
    List (ℕ × ℚ) → List ℕ → ℚ → List AnalysisUnit
  | [], batch, bmag => flushBatch magnitudes batch bmag
  | (i, mag) :: rest, batch, bmag =>
    if mag ≤ minor then
      planLoop magnitudes minor major rest (batch ++ [i]) (bmag + mag)
    else
      flushBatch magnitudes batch bmag ++
        (if major ≤ mag then
          [{ snapshot_range := (i, i + 1), transitions := [i],
             tier := "major", total_magnitude := mag,
             is_inflection_point := true }]
        else
          [{ snapshot_range := (i, i + 1), transitions := [i],
             tier := "moderate", total_magnitude := mag,
             is_inflection_point := false }]) ++
        planLoop magnitudes minor major rest [] 0

/-- `plan_analysis_units` (change_analyzer.py lines 178-273); `none`
models the `ValueError` raised on a diffs/magnitudes length mismatch. -/
def plan_analysis_units (snapshot_count : ℕ) (diffs : List SnapshotDiff)
    (magnitudes : List ℚ) (breakpoints : BreakpointResult) :
    Option (List AnalysisUnit) :=
  if diffs.length ≠ magnitudes.length then none
  else some (planLoop magnitudes breakpoints.minor_threshold
    breakpoints.major_threshold magnitudes.enum [] 0)

theorem roundHalfEven_bounds (x : ℚ) :
    x - 1 / 2 ≤ (roundHalfEven x : ℚ) ∧ (roundHalfEven x : ℚ) ≤ x + 1 / 2 := by
  rw [roundHalfEven]
  by_cases hx : Int.fract x = 1 / 2
  · rw [if_pos hx]
    have hfl : ((⌊x⌋ : ℤ) : ℚ) = x - 1 / 2 := by
      have h := Int.fract_add_floor x
      rw [hx] at h
      linarith
    have hk := abs_sub_round (x / 2)
    rw [abs_le] at hk
    obtain ⟨hk1, hk2⟩ := hk
    push_cast
    constructor
    · have h1 : (⌊x⌋ : ℚ) < 2 * (round (x / 2) : ℚ) + 1 := by linarith
      have h2 : ⌊x⌋ < 2 * round (x / 2) + 1 := by exact_mod_cast h1
      have h3 : ⌊x⌋ ≤ 2 * round (x / 2) := by omega
      have h4 : ((⌊x⌋ : ℤ) : ℚ) ≤ ((2 * round (x / 2) : ℤ) : ℚ) := by
        exact_mod_cast h3
      push_cast at h4
      linarith
    · have h1 : 2 * (round (x / 2) : ℚ) < (⌊x⌋ : ℚ) + 2 := by linarith
      have h2 : 2 * round (x / 2) < ⌊x⌋ + 2 := by exact_mod_cast h1
      have h3 : 2 * round (x / 2) ≤ ⌊x⌋ + 1 := by omega
      have h4 : ((2 * round (x / 2) : ℤ) : ℚ) ≤ ((⌊x⌋ + 1 : ℤ) : ℚ) := by
        exact_mod_cast h3
      push_cast at h4
      linarith
  · rw [if_neg hx]
    have hk := abs_sub_round x
    rw [abs_le] at hk
    constructor <;> [linarith [hk.2]; linarith [hk.1]]

theorem roundHalfEven_mono {x y : ℚ} (h : x ≤ y) :
    roundHalfEven x ≤ roundHalfEven y := by
  rcases eq_or_lt_of_le h with rfl | hlt
  · exact le_refl _
  by_contra hc
  push_neg at hc
  obtain ⟨hx1, hx2⟩ := roundHalfEven_bounds x
  obtain ⟨hy1, hy2⟩ := roundHalfEven_bounds y
  have hzc : roundHalfEven y + 1 ≤ roundHalfEven x := Int.lt_iff_add_one_le.mp hc
  have hzq : (roundHalfEven y : ℚ) + 1 ≤ (roundHalfEven x : ℚ) := by
    exact_mod_cast hzc
  linarith

theorem roundHalfEven_intCast (m : ℤ) : roundHalfEven (m : ℚ) = m := by
  rw [roundHalfEven, if_neg (by rw [Int.fract_intCast]; norm_num), round_intCast]

theorem pyRound_eq_self (x : ℚ) (n : ℕ) (m : ℤ) (h : x * 10 ^ n = (m : ℚ)) :
    pyRound x n = x := by
  rw [pyRound, h, roundHalfEven_intCast, ← h, mul_div_assoc,
    div_self (by positivity), mul_one]

theorem pyRound_mono {x y : ℚ} (n : ℕ) (h : x ≤ y) :
    pyRound x n ≤ pyRound y n := by
  rw [pyRound, pyRound, div_eq_mul_inv, div_eq_mul_inv]
  have h1 : roundHalfEven (x * 10 ^ n) ≤ roundHalfEven (y * 10 ^ n) :=
    roundHalfEven_mono (mul_le_mul_of_nonneg_right h (by positivity))
  have h2 : ((roundHalfEven (x * 10 ^ n) : ℤ) : ℚ)
      ≤ ((roundHalfEven (y * 10 ^ n) : ℤ) : ℚ) := by exact_mod_cast h1
  exact mul_le_mul_of_nonneg_right h2 (by positivity)

theorem sorted_getD_mono {l : List ℚ} (hl : l.Sorted (· ≤ ·)) {i j : ℕ}
    (hij : i ≤ j) (hj : j < l.length) : l.getD i 0 ≤ l.getD j 0 := by
  have hi : i < l.length := Nat.lt_of_le_of_lt hij hj
  rw [List.getD_eq_getElem l 0 hi, List.getD_eq_getElem l 0 hj]
  rcases Nat.eq_or_lt_of_le hij with rfl | hlt
  · exact le_refl _
  · exact List.pairwise_iff_getElem.mp hl i j hi hj hlt

theorem gapPairs_snd_lt {s : List ℚ} {a : ℚ × ℕ} (ha : a ∈ gapPairs s) :
    a.2 < s.length - 1 := by
  rw [gapPairs] at ha
  simp only [List.mem_map, List.mem_range] at ha
  obtain ⟨i, hi, rfl⟩ := ha
  exact hi

theorem fb_gap_le (s : List ℚ) (hs : s.Sorted (· ≤ ·))
    (h3 : 3 ≤ s.length) :
    (fb_gap s).minor_threshold ≤ (fb_gap s).major_threshold := by
  have hglen : (gapsSorted s).length = s.length - 1 := by
    rw [gapsSorted, List.length_insertionSort, gapPairs, List.length_map,
      List.length_range]
  have h2 : 2 ≤ (gapsSorted s).length := by omega
  have hmem0 : (gapsSorted s).getD 0 (0, 0) ∈ gapPairs s := by
    have hm : (gapsSorted s).getD 0 (0, 0) ∈ gapsSorted s := by
      rw [List.getD_eq_getElem _ _ (by omega)]
      exact List.getElem_mem _
    rw [gapsSorted] at hm
    exact ((List.perm_insertionSort _ _).mem_iff).mp hm
  have hi0 : gIdx s 0 < s.length - 1 := gapPairs_snd_lt hmem0
  rw [fb_gap, if_pos h2]
  by_cases hfix : midGap s (max (gIdx s 0) (gIdx s 1))
      ≤ midGap s (min (gIdx s 0) (gIdx s 1))
  · rw [if_pos hfix]
    dsimp only
    apply pyRound_mono
    have ha : s.getD (gIdx s 0) 0 ≤ s.getD (s.length - 1) 0 :=
      sorted_getD_mono hs (by omega) (by omega)
    have hb : s.getD (gIdx s 0 + 1) 0 ≤ s.getD (s.length - 1) 0 :=
      sorted_getD_mono hs (by omega) (by omega)
    rw [midGap]
    linarith
  · rw [if_neg hfix]
    dsimp only
    exact pyRound_mono 6 (le_of_lt (not_le.mp hfix))

theorem fbBody_le (s : List ℚ) (hs : s.Sorted (· ≤ ·))
    (h4 : 4 ≤ s.length) :
    (fbBody s).minor_threshold ≤ (fbBody s).major_threshold := by
  rw [fbBody]
  by_cases h5 : s.length < 5
  · have hn : s.length = 4 := by omega
    rw [if_pos h5]
    dsimp only
    rw [if_pos h4]
    apply pyRound_mono
    rw [fb_median, fb_q3, hn]
    rw [if_neg (by norm_num), if_pos (by norm_num)]
    have e2 : (4 : ℕ) / 2 - 1 = 1 := rfl
    have e1 : (4 : ℕ) / 2 = 2 := rfl
    have e3 : 3 * 4 / 4 = 3 := rfl
    rw [e2, e1, e3]
    have h13 : s.getD 1 0 ≤ s.getD 3 0 :=
      sorted_getD_mono hs (by omega) (by omega)
    have h23 : s.getD 2 0 ≤ s.getD 3 0 :=
      sorted_getD_mono hs (by omega) (by omega)
    linarith
  · rw [if_neg h5]
    by_cases hu : fb_variance s < (fb_mean s * (3 / 10)) ^ 2 ∧ 0 < fb_mean s
    · rw [if_pos hu]
      dsimp only
      apply pyRound_mono
      rw [fb_q1, fb_q3, if_pos h4, if_pos h4]
      exact sorted_getD_mono hs (by omega) (by omega)
    · rw [if_neg hu]
      exact fb_gap_le s hs (by omega)

/-- C4 counterexample: `find_breakpoints` does NOT always return
`minor_threshold < major_threshold`.  For the single magnitude `[1.0]`
the few-transitions branch gives `minor = median = 1` and
`major = max * 0.8 = 0.8 < minor`; for `[1.0, 1.0, 1.0, 1.0]` it gives
`minor = median = 1 = q3 = major`, so even with four magnitudes only
the non-strict inequality holds. -/
theorem c4_strict_threshold_counterexample :
    ¬ ((find_breakpoints [(1 : ℚ)]).minor_threshold
        < (find_breakpoints [(1 : ℚ)]).major_threshold)
      ∧ (find_breakpoints [(1 : ℚ), 1, 1, 1]).minor_threshold
        = (find_breakpoints [(1 : ℚ), 1, 1, 1]).major_threshold := by
  have e1 : pyRound (1 : ℚ) 6 = 1 := pyRound_eq_self 1 6 1000000 (by norm_num)
  have e2 : pyRound ((4 : ℚ) / 5) 6 = 4 / 5 :=
    pyRound_eq_self _ 6 800000 (by norm_num)
  have h1 : find_breakpoints [(1 : ℚ)] = ⟨1, 4 / 5⟩ := by
    have hs : List.insertionSort (· ≤ ·) [(1 : ℚ)] = [1] := by decide
    rw [find_breakpoints, if_neg (by simp), hs, fbBody]
    rw [if_pos (by norm_num)]
    have hm : fb_median [(1 : ℚ)] = 1 := by rw [fb_median]; norm_num
    rw [hm, e1, if_neg (by norm_num)]
    norm_num [e2]
  have h2 : find_breakpoints [(1 : ℚ), 1, 1, 1] = ⟨1, 1⟩ := by
    have hs : List.insertionSort (· ≤ ·) [(1 : ℚ), 1, 1, 1]
        = [1, 1, 1, 1] := by decide
    rw [find_breakpoints, if_neg (by simp), hs, fbBody]
    rw [if_pos (by norm_num), if_pos (by norm_num)]
    have hm : fb_median [(1 : ℚ), 1, 1, 1] = 1 := by rw [fb_median]; norm_num
    have hq : fb_q3 [(1 : ℚ), 1, 1, 1] = 1 := by rw [fb_q3]; norm_num
    rw [hm, hq, e1]
  rw [h1, h2]
  norm_num

/-- C4 (amended): for every magnitude list with at least four entries,
`find_breakpoints` returns `minor_threshold ≤ major_threshold`.  The
claim's strict `<` for *every* input fails for fewer than four
magnitudes (`[1.0]` reverses the order) and degenerates to equality on
constant lists such as `[1.0, 1.0, 1.0, 1.0]`. -/
theorem c4_amended_thresholds_ordered (magnitudes : List ℚ)
    (h4 : 4 ≤ magnitudes.length) :
    (find_breakpoints magnitudes).minor_threshold
      ≤ (find_breakpoints magnitudes).major_threshold := by
  have hne : magnitudes ≠ [] := by
    intro h
    rw [h] at h4
    simp at h4
  rw [find_breakpoints, if_neg hne]
  exact fbBody_le _ (List.sorted_insertionSort _ _)
    (by rw [List.length_insertionSort]; exact h4)

/-- Closed witness for `c4_amended_thresholds_ordered` at four
magnitudes. -/
theorem c4_amended_thresholds_ordered_witness :
    (find_breakpoints [(0 : ℚ), 0, 0, 10]).minor_threshold
      ≤ (find_breakpoints [(0 : ℚ), 0, 0, 10]).major_threshold :=
  c4_amended_thresholds_ordered [0, 0, 0, 10] (by norm_num)

theorem flushBatch_join (magnitudes : List ℚ) (batch : List ℕ) (bmag : ℚ) :
    ((flushBatch magnitudes batch bmag).map AnalysisUnit.transitions).join
      = batch := by
  rcases batch with _ | ⟨a, _ | ⟨b, t⟩⟩ <;> simp [flushBatch]

theorem planLoop_join (magnitudes : List ℚ) (minor major : ℚ)
    (pairs : List (ℕ × ℚ)) (batch : List ℕ) (bmag : ℚ) :
    ((planLoop magnitudes minor major pairs batch bmag).map
        AnalysisUnit.transitions).join = batch ++ pairs.map Prod.fst := by
  induction pairs generalizing batch bmag with
  | nil => simp [planLoop, flushBatch_join]
  | cons p rest ih =>
    obtain ⟨i, mag⟩ := p
    simp only [planLoop]
    by_cases hmin : mag ≤ minor
    · rw [if_pos hmin, ih]
      simp
    · rw [if_neg hmin]
      by_cases hmaj : major ≤ mag
      · rw [if_pos hmaj]
        simp [flushBatch_join, ih]
      · rw [if_neg hmaj]
        simp [flushBatch_join, ih]

/-- C8: whenever `plan_analysis_units` returns a plan over `N`
transitions, concatenating the `transitions` lists of its units in unit
order yields exactly `[0, 1, ..., N-1]`: every transition index is
covered once, in ascending order, with no duplicates. -/
theorem c8_plan_transitions_partition (snapshot_count : ℕ)
    (diffs : List SnapshotDiff) (magnitudes : List ℚ)
    (breakpoints : BreakpointResult) (units : List AnalysisUnit)
    (h : plan_analysis_units snapshot_count diffs magnitudes breakpoints
      = some units) :
    (units.map AnalysisUnit.transitions).join
      = List.range magnitudes.length := by
  rw [plan_analysis_units] at h
  split at h
  · exact Option.noConfusion h
  · obtain rfl := Option.some.inj h
    rw [planLoop_join]
    simp [List.enum_map_fst]

/-- Closed witness for `c8_plan_transitions_partition`: three
transitions with magnitudes `[0, 1, 10]` against thresholds
`minor = 0`, `major = 5` plan into a minor unit, a moderate unit and a
major unit, whose transitions concatenate to `[0, 1, 2]`. -/
theorem c8_plan_transitions_partition_witness :
    ((([{ snapshot_range := (0, 1), transitions := [0], tier := "minor",
          total_magnitude := 0, is_inflection_point := false },
        { snapshot_range := (1, 2), transitions := [1], tier := "moderate",
          total_magnitude := 1, is_inflection_point := false },
        { snapshot_range := (2, 3), transitions := [2], tier := "major",
          total_magnitude := 10, is_inflection_point := true }] :
        List AnalysisUnit).map AnalysisUnit.transitions).join
      = List.range 3) :=
  c8_plan_transitions_partition 4
    [⟨[], [], [], [], [], 0, 0, [], [], 0, [], []⟩,
     ⟨[], [], [], [], [], 0, 0, [], [], 0, [], []⟩,
     ⟨[], [], [], [], [], 0, 0, [], [], 0, [], []⟩]
    [0, 1, 10] ⟨0, 5⟩ _ (by decide)
